import Mathlib

/-!
# Verification of the event/scheduling core (`engine/m02_events`, `engine/lib`)

A shallow embedding of the event queue, subscription broker, scheduling
policies and the deterministic PRNG of the repository, together with
theorems that settle the frozen claims about them.

Conventions of the embedding:
* Python `dict` (insertion ordered) becomes an association list whose
  insert replaces in place when the key exists and appends otherwise.
* Python `int` becomes `Int` (or `Nat` when the source value is a count),
  with explicit `% 2 ^ w` masks where CPython masks to machine words.
* Python `float` values that the core compares (deadlines, tie-breaks,
  progress) are exact dyadic rationals in the source, so they become `ℚ`;
  `math.inf` becomes the `none` case of an `Option ℚ` ordered above all.
* Methods that `raise` become functions into `Except String`; a raise
  happens before any mutation, so the erroring call returns the input
  state unchanged.
* `utc_ms_now()` readings are drawn from an explicit clock stream
  (`List Int`) threaded through the state, which makes the wall-clock
  dependence of audit records visible.
* Event fields that no modelled operation reads or writes
  (`max_request_priority`, `ttl_seconds`, `dependencies`, `team_size`,
  `parent_id`, `group_id`, `idempotency_key`, `eta_s`, `severity`,
  `qualifiers`, `preconditions`, `payload`, the `details` dict of audit
  entries, which every modelled call site leaves empty) are omitted:
  they are opaque to the scheduler core.
-/

set_option maxRecDepth 8000

namespace Starship

/-- One record of an event's append-only audit log
(`Event.append_audit` in `m02_events/models.py`); the `details` dict is
empty at every modelled call site and is omitted. -/
structure AuditEntry where
  ts : Int
  actor_id : String
  action : String
  deriving Repr, DecidableEq

/-- The event record of `m02_events/models.py` restricted to the fields
the scheduler core reads or writes.  `state` stays a string exactly as in
the source (`Literal[...]`); `deadline` holds the value of
`datetime.timestamp()` in seconds, `none` meaning absent. -/
structure Event where
  id : String
  type : String
  ts_ms : Int
  issuer : Option String := none
  audience_scope : List String
  category : Option String := none
  priority : Int := 50
  preemptible : Bool := true
  deadline : Option ℚ := none
  state : String := "queued"
  taker : Option String := none
  progress : ℚ := 0
  audit : List AuditEntry := []
  deriving Repr, DecidableEq

/-- `Event.append_audit`: push one audit record with the given wall-clock
reading. -/
def Event.appendAudit (e : Event) (ts : Int) (actor action : String) : Event :=
  { e with audit := e.audit ++ [⟨ts, actor, action⟩] }

/-! ## Insertion-ordered dictionaries (Python `dict`) -/

/-- `d[k]` lookup returning `none` when absent (`dict.get`). -/
def dictGet {α : Type} (d : List (String × α)) (k : String) : Option α :=
  match d with
  | [] => none
  | (k', v) :: rest => if k' = k then some v else dictGet rest k

/-- `d[k] = v`: replace in place when the key exists, append otherwise
(CPython dicts preserve insertion order). -/
def dictSet {α : Type} (d : List (String × α)) (k : String) (v : α) :
    List (String × α) :=
  match d with
  | [] => [(k, v)]
  | (k', v') :: rest =>
      if k' = k then (k, v) :: rest else (k', v') :: dictSet rest k v

/-- `d.setdefault(k, dflt)` evaluated for its side effect: ensure the key
exists, binding it to `dflt` when absent. -/
def dictSetdefault {α : Type} (d : List (String × α)) (k : String) (dflt : α) :
    List (String × α) :=
  match dictGet d k with
  | some _ => d
  | none => d ++ [(k, dflt)]

/-- The keys of a dictionary, in insertion order (`dict.keys()`). -/
def dictKeys {α : Type} (d : List (String × α)) : List String :=
  d.map Prod.fst

/-! ## EventQueue (`m02_events/queue.py`) -/

/-- Python truthiness of the optional `category` string: `if e.category:`
is false for `None` and for the empty string. -/
def catTruthy (c : Option String) : Bool :=
  match c with
  | none => false
  | some s => s ≠ ""

/-- The central event store: primary map plus category and scope indices,
all insertion ordered. -/
structure EventQueue where
  capacity : Int := 10000
  events : List (String × Event) := []
  by_category : List (String × List String) := []
  by_scope : List (String × List String) := []
  deriving Repr, DecidableEq

/-- `self._by_xxx.setdefault(key, []).append(id)`. -/
def indexAppend (d : List (String × List String)) (k id : String) :
    List (String × List String) :=
  let d := dictSetdefault d k []
  dictSet d k ((dictGet d k).getD [] ++ [id])

/-- `lst = self._by_xxx.get(key, []); if id in lst: lst.remove(id)` —
remove the first occurrence from the indexed list when the key exists
(mutating a fresh `[]` default is lost in the source, hence the no-op on
a missing key). -/
def indexRemoveFirst (d : List (String × List String)) (k id : String) :
    List (String × List String) :=
  match dictGet d k with
  | none => d
  | some lst => dictSet d k (lst.erase id)

/-- `EventQueue.publish`: capacity check first, then insert under the
event's id and append the id to the category index (when the category is
truthy) and to each scope index. -/
def EventQueue.publish (eq : EventQueue) (e : Event) :
    Except String EventQueue :=
  if (eq.events.length : Int) ≥ eq.capacity then
    .error "queue capacity exceeded"
  else
    let events := dictSet eq.events e.id e
    let byCat :=
      if catTruthy e.category then
        indexAppend eq.by_category (e.category.getD "") e.id
      else eq.by_category
    let byScope := e.audience_scope.foldl (fun d s => indexAppend d s e.id)
      eq.by_scope
    .ok { eq with
            events := events
            by_category := byCat
            by_scope := byScope }

/-- `EventQueue.update`: fail when the id is unknown; otherwise drop the
id from the previously stored event's category list and scope lists
(first occurrence each), store the new record, re-insert the id under the
new category/scopes, and append a `system`/`update` audit record.  In the
source the audit entry is appended after the store through the shared
reference, so the stored record carries it; the function returns that
stored record as well. -/
def EventQueue.update (eq : EventQueue) (e : Event) (ts : Int) :
    Except String (EventQueue × Event) :=
  match dictGet eq.events e.id with
  | none => .error "event not found"
  | some old =>
    let byCat :=
      if catTruthy old.category then
        indexRemoveFirst eq.by_category (old.category.getD "") e.id
      else eq.by_category
    let byScope := old.audience_scope.foldl
      (fun d s => indexRemoveFirst d s e.id) eq.by_scope
    let byCat :=
      if catTruthy e.category then
        indexAppend byCat (e.category.getD "") e.id
      else byCat
    let byScope := e.audience_scope.foldl (fun d s => indexAppend d s e.id)
      byScope
    let e' := e.appendAudit ts "system" "update"
    .ok ({ eq with
             events := dictSet eq.events e.id e'
             by_category := byCat
             by_scope := byScope }, e')

/-- `EventQueue.get_by_id`. -/
def EventQueue.getById (eq : EventQueue) (event_id : String) : Option Event :=
  dictGet eq.events event_id

/-- `EventQueue.list_by_category` (a shallow copy in the source). -/
def EventQueue.listByCategory (eq : EventQueue) (category : String) :
    List String :=
  (dictGet eq.by_category category).getD []

/-- `EventQueue.list_by_scope`. -/
def EventQueue.listByScope (eq : EventQueue) (scope : String) : List String :=
  (dictGet eq.by_scope scope).getD []

/-! ## Identity (`m02_events/models.py : new_ulid`) -/

/-- Crockford base-32 alphabet of `models.py`. -/
def ulidAlphabet : List Char := "0123456789ABCDEFGHJKMNPQRSTVWXYZ".data

/-- `new_ulid` with its two ambient inputs made explicit: the wall-clock
reading `int(time.time() * 1000)` and the ten `os.urandom` bytes as one
integer.  `timestamp_ms.to_bytes(6, "big") ++ random_bytes` read
big-endian is `ts * 2^80 + rand`; the loop takes 26 five-bit digits from
the low end and reverses them. -/
def newUlid (timestamp_ms random_bytes : Nat) : String :=
  let value := timestamp_ms % 2 ^ 48 * 2 ^ 80 + random_bytes % 2 ^ 80
  let chars := (List.range 26).map
    (fun i => ulidAlphabet.getD ((value >>> (5 * i)) &&& 31) ' ')
  String.mk chars.reverse

/-! ## Stable hashing (`lib/rng.py : _stable_hash`)

`_stable_hash(obj)` is the 8-byte BLAKE2b digest of `repr(obj)` encoded
as UTF-8, read big-endian.  The identifiers fed to it by the broker are
plain ASCII strings, for which `repr` is the string wrapped in single
quotes and UTF-8 coincides with the code points. -/

/-- Low 64-bit mask. -/
def mask64 : Nat := 2 ^ 64 - 1

/-- 64-bit wrapping addition. -/
def add64 (a b : Nat) : Nat := (a + b) &&& mask64

/-- 64-bit rotate right. -/
def ror64 (x n : Nat) : Nat := ((x >>> n) ||| (x <<< (64 - n))) &&& mask64

/-- BLAKE2b initialization vector. -/
def blakeIV : List Nat :=
  [0x6a09e667f3bcc908, 0xbb67ae8584caa73b, 0x3c6ef372fe94f82b,
   0xa54ff53a5f1d36f1, 0x510e527fade682d1, 0x9b05688c2b3e6c1f,
   0x1f83d9abfb41bd6b, 0x5be0cd19137e2179]

/-- BLAKE2b message schedule. -/
def blakeSigma : List (List Nat) :=
  [[0, 1, 2, 3, 4, 5, 6, 7, 8, 9, 10, 11, 12, 13, 14, 15],
   [14, 10, 4, 8, 9, 15, 13, 6, 1, 12, 0, 2, 11, 7, 5, 3],
   [11, 8, 12, 0, 5, 2, 15, 13, 10, 14, 3, 6, 7, 1, 9, 4],
   [7, 9, 3, 1, 13, 12, 11, 14, 2, 6, 5, 10, 4, 0, 15, 8],
   [9, 0, 5, 7, 2, 4, 10, 15, 14, 1, 11, 12, 6, 8, 3, 13],
   [2, 12, 6, 10, 0, 11, 8, 3, 4, 13, 7, 5, 15, 14, 1, 9],
   [12, 5, 1, 15, 14, 13, 4, 10, 0, 7, 6, 3, 9, 2, 8, 11],
   [13, 11, 7, 14, 12, 1, 3, 9, 5, 0, 15, 4, 8, 6, 2, 10],
   [6, 15, 14, 9, 11, 3, 0, 8, 12, 2, 13, 7, 1, 4, 10, 5],
   [10, 2, 8, 4, 7, 6, 1, 5, 15, 11, 9, 14, 3, 12, 13, 0]]

/-- The BLAKE2b mixing function G acting on the 16-word work vector. -/
def blakeG (v : Array Nat) (a b c d x y : Nat) : Array Nat := Id.run do
  let mut v := v
  v := v.set! a (add64 (add64 (v.get! a) (v.get! b)) x)
  v := v.set! d (ror64 ((v.get! d) ^^^ (v.get! a)) 32)
  v := v.set! c (add64 (v.get! c) (v.get! d))
  v := v.set! b (ror64 ((v.get! b) ^^^ (v.get! c)) 24)
  v := v.set! a (add64 (add64 (v.get! a) (v.get! b)) y)
  v := v.set! d (ror64 ((v.get! d) ^^^ (v.get! a)) 16)
  v := v.set! c (add64 (v.get! c) (v.get! d))
  v := v.set! b (ror64 ((v.get! b) ^^^ (v.get! c)) 63)
  return v

/-- One BLAKE2b compression of a 16-word message block into the state
`h`, with byte counter `t` and final-block flag. -/
def blakeCompress (h : Array Nat) (m : Array Nat) (t : Nat) (last : Bool) :
    Array Nat := Id.run do
  let mut v : Array Nat := h ++ blakeIV.toArray
  v := v.set! 12 ((v.get! 12) ^^^ (t &&& mask64))
  v := v.set! 13 ((v.get! 13) ^^^ (t >>> 64))
  if last then
    v := v.set! 14 ((v.get! 14) ^^^ mask64)
  for r in List.range 12 do
    let s := blakeSigma.getD (r % 10) []
    let w := fun i => m.get! (s.getD i 0)
    v := blakeG v 0 4 8 12 (w 0) (w 1)
    v := blakeG v 1 5 9 13 (w 2) (w 3)
    v := blakeG v 2 6 10 14 (w 4) (w 5)
    v := blakeG v 3 7 11 15 (w 6) (w 7)
    v := blakeG v 0 5 10 15 (w 8) (w 9)
    v := blakeG v 1 6 11 12 (w 10) (w 11)
    v := blakeG v 2 7 8 13 (w 12) (w 13)
    v := blakeG v 3 4 9 14 (w 14) (w 15)
  let mut hh := h
  for i in List.range 8 do
    hh := hh.set! i ((h.get! i) ^^^ (v.get! i) ^^^ (v.get! (i + 8)))
  return hh

/-- Read eight bytes little-endian as one 64-bit word. -/
def leWord64 (bytes : List Nat) : Nat :=
  bytes.reverse.foldl (fun acc b => acc * 256 + b % 256) 0

/-- Split a 128-byte block into its 16 little-endian words. -/
def blockWords (block : List Nat) : Array Nat :=
  ((List.range 16).map (fun i => leWord64 ((block.drop (8 * i)).take 8))).toArray

/-- Absorb the message 128 bytes at a time; the final (possibly partial)
block is zero-padded and compressed with the total length as counter.
The fuel argument only bounds the recursion (one unit per block) so the
definition reduces structurally; `blake2b64` supplies enough. -/
def blakeAbsorb (fuel : Nat) (h : Array Nat) (consumed : Nat)
    (rest : List Nat) : Array Nat :=
  match fuel with
  | 0 => h
  | fuel + 1 =>
    if rest.length ≤ 128 then
      let block := rest ++ List.replicate (128 - rest.length) 0
      blakeCompress h (blockWords block) (consumed + rest.length) true
    else
      blakeAbsorb fuel (blakeCompress h (blockWords (rest.take 128))
        (consumed + 128) false) (consumed + 128) (rest.drop 128)

/-- Swap the byte order of a 64-bit word (`int.from_bytes(le_digest,
"big")`). -/
def byteswap64 (x : Nat) : Nat :=
  (List.range 8).foldl (fun acc i => acc * 256 + ((x >>> (8 * i)) &&& 255)) 0

/-- `hashlib.blake2b(msg, digest_size=8)` as a 64-bit integer read
big-endian from its little-endian digest bytes.  The parameter block for
digest size 8, no key, fanout 1, depth 1 XORs `0x01010008` into the
first state word. -/
def blake2b64 (msg : List Nat) : Nat :=
  let h0 : Array Nat :=
    (blakeIV.headI ^^^ 0x01010008) :: blakeIV.tail |>.toArray
  byteswap64 ((blakeAbsorb (msg.length / 128 + 1) h0 0 msg).get! 0)

/-- `repr` of an ASCII identifier string: the string wrapped in single
quotes (code point 39). -/
def pyReprStr (s : String) : String :=
  String.singleton (Char.ofNat 39) ++ s ++ String.singleton (Char.ofNat 39)

/-- UTF-8 bytes of an ASCII string (code points). -/
def strBytes (s : String) : List Nat := s.data.map Char.toNat

/-- `_stable_hash` applied to a string. -/
def stableHash (s : String) : Nat := blake2b64 (strBytes (pyReprStr s))

/-- `seed_for`'s seed derivation: mask the save seed to 64 bits
(`save_seed & 0xFFFFFFFFFFFFFFFF`) and XOR in the stable hash of each
identifier. -/
def seedFor (save_seed : Int) (ids : List String) : Nat :=
  ids.foldl (fun seed s => seed ^^^ stableHash s)
    ((save_seed % (2 ^ 64 : Int)).toNat)

/-! ## The seeded PRNG (`lib/rng.py : seed_for`, CPython `random.Random`)

`random.Random(seed)` is the MT19937 generator: the integer seed is split
into 32-bit little-endian words and fed to `init_by_array`; `random()`
draws two tempered 32-bit words and returns `(a >> 5) * 2^26 + (b >> 6)`
over `2^53`, an exact dyadic rational. -/

/-- Low 32-bit mask. -/
def mask32 : Nat := 2 ^ 32 - 1

/-- MT19937 state size. -/
def mtN : Nat := 624

/-- MT19937 shift parameter. -/
def mtM : Nat := 397

/-- `mt[i]` on the state list. -/
def mtGet (mt : List Nat) (i : Nat) : Nat := mt.getD i 0

/-- `init_genrand`: expand one 32-bit seed into the 624-word state. -/
def mtInitGenrand (s : Nat) : List Nat :=
  (List.range' 1 (mtN - 1)).foldl
    (fun mt i =>
      let prev := mtGet mt (i - 1)
      mt.set i ((1812433253 * (prev ^^^ (prev >>> 30)) + i) &&& mask32))
    ((List.replicate mtN 0).set 0 (s &&& mask32))

/-- The key array handed to `init_by_array` (CPython `random_seed`): the
seed as little-endian 32-bit words, at least one.  Every seed the core
produces is below `2^64` (`seed_for` masks to 64 bits and XORs 64-bit
digests), so at most two words arise. -/
def mtKey (seed : Nat) : List Nat :=
  if seed < 2 ^ 32 then [seed] else [seed &&& mask32, seed >>> 32]

/-- One step of the key-mixing loop of `init_by_array`, acting on the
state `(mt, i, j)`. -/
def mtMixKey (key : List Nat) (st : List Nat × Nat × Nat) (_ : Nat) :
    List Nat × Nat × Nat :=
  let mt := st.1
  let i := st.2.1
  let j := st.2.2
  let prev := mtGet mt (i - 1)
  let mt := mt.set i ((((mtGet mt i) ^^^ ((prev ^^^ (prev >>> 30)) * 1664525))
    + key.getD j 0 + j) &&& mask32)
  let i := i + 1
  let j := j + 1
  let mt := if i ≥ mtN then mt.set 0 (mtGet mt (mtN - 1)) else mt
  let i := if i ≥ mtN then 1 else i
  let j := if j ≥ key.length then 0 else j
  (mt, i, j)

/-- One step of the second loop of `init_by_array`; the 32-bit
subtraction `mt[i] - i` is written `+ 2^32 - i` before the mask. -/
def mtMixConst (st : List Nat × Nat) (_ : Nat) : List Nat × Nat :=
  let mt := st.1
  let i := st.2
  let prev := mtGet mt (i - 1)
  let mt := mt.set i ((((mtGet mt i) ^^^ ((prev ^^^ (prev >>> 30)) * 1566083941))
    + 2 ^ 32 - i) &&& mask32)
  let i := i + 1
  let mt := if i ≥ mtN then mt.set 0 (mtGet mt (mtN - 1)) else mt
  let i := if i ≥ mtN then 1 else i
  (mt, i)

/-- `init_by_array`: mix the key into the state seeded with 19650218,
then pin `mt[0]`. -/
def mtInitByArray (key : List Nat) : List Nat :=
  let st := (List.range (max mtN key.length)).foldl (mtMixKey key)
    (mtInitGenrand 19650218, 1, 0)
  let st2 := (List.range (mtN - 1)).foldl mtMixConst (st.1, st.2.1)
  st2.1.set 0 0x80000000

/-- The twist constant applied on an odd low bit. -/
def mtMag (y : Nat) : Nat := if y &&& 1 = 1 then 0x9908b0df else 0

/-- The twist at index `kk`.  The reference code spells the three phases
(`kk < N-M`, `N-M ≤ kk < N-1`, `kk = N-1`) with the index arithmetic
written out; reading the neighbour indices modulo `N` yields exactly the
same indices in all three phases. -/
def mtTwistAt (mt : List Nat) (kk : Nat) : List Nat :=
  let y := ((mtGet mt kk) &&& 0x80000000) |||
    ((mtGet mt ((kk + 1) % mtN)) &&& 0x7fffffff)
  mt.set kk ((mtGet mt ((kk + mtM) % mtN)) ^^^ (y >>> 1) ^^^ mtMag y)

/-- One full regeneration of the MT19937 state. -/
def mtGenerate (mt : List Nat) : List Nat :=
  (List.range mtN).foldl mtTwistAt mt

/-- The MT19937 tempering transform. -/
def mtTemper (y : Nat) : Nat :=
  let y := y ^^^ (y >>> 11)
  let y := y ^^^ ((y <<< 7) &&& 0x9d2c5680)
  let y := y ^^^ ((y <<< 15) &&& 0xefc60000)
  y ^^^ (y >>> 18)

/-- `random()` on a freshly seeded state: the first two tempered words
of the first regeneration combined into a 53-bit dyadic rational
(`genrand_res53`). -/
def mtRandomFromState (mt : List Nat) : ℚ :=
  let mt := mtGenerate mt
  let a := mtTemper (mtGet mt 0) >>> 5
  let b := mtTemper (mtGet mt 1) >>> 6
  ((a * 67108864 + b : Nat) : ℚ) / 9007199254740992

/-- `random.Random(seed).random()` for an integer seed. -/
def mtRandom (seed : Nat) : ℚ :=
  mtRandomFromState (mtInitByArray (mtKey seed))

/-- The deterministic tie-break of the broker:
`seed_for(save_seed, actor_id, event_id).random()`. -/
def tieBreak (save_seed : Int) (actor_id event_id : String) : ℚ :=
  mtRandom (seedFor save_seed [actor_id, event_id])

/-! ## Heap entries and CPython `heapq`

The broker's per-actor heaps are Python lists of tuples
`(priority, deadline_ts, tie_break, event_id)` ordered by tuple `<`;
`math.inf` for a missing deadline becomes the `none` case, ordered above
every timestamp.  The sift routines are translated from CPython's
`heapq.py`; loop fuels only bound the iteration count (the parent index
strictly decreases, the child index strictly increases) so the
definitions reduce structurally. -/

/-- One heap entry `(priority, deadline_ts, tie_break, event_id)`. -/
structure HeapKey where
  priority : Int
  deadline : Option ℚ
  tie : ℚ
  id : String
  deriving Repr, DecidableEq

instance : Inhabited HeapKey := ⟨⟨0, none, 0, ""⟩⟩

/-- Python `<` on the deadline slot, `none` playing `math.inf`. -/
def dlLt : Option ℚ → Option ℚ → Bool
  | some a, some b => a < b
  | some _, none => true
  | none, _ => false

/-- Python tuple `<`: compare slots left to right, moving on only on
equality. -/
def HeapKey.lt (k1 k2 : HeapKey) : Bool :=
  if k1.priority ≠ k2.priority then k1.priority < k2.priority
  else if k1.deadline ≠ k2.deadline then dlLt k1.deadline k2.deadline
  else if k1.tie ≠ k2.tie then k1.tie < k2.tie
  else k1.id < k2.id

/-- The loop of `heapq._siftdown`: bubble `newitem` toward the root
while it is smaller than its parent. -/
def siftdownLoop (fuel : Nat) (heap : List HeapKey) (startpos pos : Nat)
    (newitem : HeapKey) : List HeapKey :=
  match fuel with
  | 0 => heap.set pos newitem
  | fuel + 1 =>
    if startpos < pos then
      let parentpos := (pos - 1) / 2
      let parent := heap.getD parentpos default
      if newitem.lt parent then
        siftdownLoop fuel (heap.set pos parent) startpos parentpos newitem
      else heap.set pos newitem
    else heap.set pos newitem

/-- `heapq._siftdown(heap, startpos, pos)`. -/
def siftdown (heap : List HeapKey) (startpos pos : Nat) : List HeapKey :=
  siftdownLoop pos heap startpos pos (heap.getD pos default)

/-- The loop of `heapq._siftup`: move the smaller child up until
reaching a leaf, then place `newitem` and sift it down. -/
def siftupLoop (fuel : Nat) (heap : List HeapKey) (pos : Nat)
    (newitem : HeapKey) (startpos : Nat) : List HeapKey :=
  match fuel with
  | 0 => siftdown (heap.set pos newitem) startpos pos
  | fuel + 1 =>
    let endpos := heap.length
    let childpos := 2 * pos + 1
    if childpos < endpos then
      let rightpos := childpos + 1
      let childpos :=
        if rightpos < endpos ∧
            ¬ (heap.getD childpos default).lt (heap.getD rightpos default) then
          rightpos
        else childpos
      siftupLoop fuel (heap.set pos (heap.getD childpos default)) childpos
        newitem startpos
    else siftdown (heap.set pos newitem) startpos pos

/-- `heapq._siftup(heap, pos)`. -/
def siftup (heap : List HeapKey) (pos : Nat) : List HeapKey :=
  siftupLoop heap.length heap pos (heap.getD pos default) pos

/-- `heapq.heappush`: append, then sift the new last element down toward
the root. -/
def heappush (heap : List HeapKey) (item : HeapKey) : List HeapKey :=
  siftdown (heap ++ [item]) 0 heap.length

/-- `heapq.heappop`: pop the last element; if the heap is still
nonempty, move it to the root and sift up.  `none` on an empty heap
(the callers guard with `while heap`). -/
def heappop (heap : List HeapKey) : Option (HeapKey × List HeapKey) :=
  match heap.getLast? with
  | none => none
  | some lastelt =>
    let rest := heap.dropLast
    if rest.isEmpty then some (lastelt, [])
    else some (rest.headD default, siftup (rest.set 0 lastelt) 0)

/-! ## Scheduling policies (`m02_events/scheduling.py`) -/

/-- `AGING_S`. -/
def AGING_S : Int := 120

/-- `STEP_S`. -/
def STEP_S : Int := 30

/-- `MIN_PRIORITY`. -/
def MIN_PRIORITY : Int := 5

/-- `should_preempt(current, incoming)`. -/
def shouldPreempt (current incoming : Event) : Bool :=
  incoming.priority < current.priority ∧ current.preemptible

/-- `effective_priority(e, now_ms)`; Python `//` is floor division, and
`math.floor(wait_s / STEP_S)` on nonnegative ints is again floor
division. -/
def effectivePriority (e : Event) (now_ms : Int) : Int :=
  if e.priority = 0 then 0
  else
    let wait_s : Int := max 0 ((now_ms - e.ts_ms).fdiv 1000)
    if wait_s ≤ AGING_S then e.priority
    else max MIN_PRIORITY (e.priority - wait_s.fdiv STEP_S)

/-! ## SubscriptionBroker (`m02_events/subscriptions.py`)

The broker and the queue it owns, bundled with the clock stream feeding
`utc_ms_now`. -/

/-- Whole-system state: the queue, the per-actor heaps (`_personal`),
the per-actor scope sets (`_subscriptions`, duplicate-free lists), and
the stream of upcoming wall-clock readings. -/
structure Sys where
  eq : EventQueue
  personal : List (String × List HeapKey) := []
  subscriptions : List (String × List String) := []
  clock : List Int := []
  deriving Repr, DecidableEq

/-- Draw one `utc_ms_now()` reading from a clock stream. -/
def nextTs : List Int → Int × List Int
  | [] => (0, [])
  | t :: ts => (t, ts)

/-- Draw one `utc_ms_now()` reading from the system's clock stream. -/
def tick (s : Sys) : Int × Sys :=
  match s.clock with
  | [] => (0, s)
  | t :: ts => (t, { s with clock := ts })

/-- `SubscriptionBroker.subscribe`: union the scopes into the actor's
set, create an empty heap if absent. -/
def subscribe (s : Sys) (actor : String) (scopes : List String) : Sys :=
  let subs := (dictGet s.subscriptions actor).getD []
  let subs := scopes.foldl
    (fun acc sc => if sc ∈ acc then acc else acc ++ [sc]) subs
  { s with
      subscriptions := dictSet (dictSetdefault s.subscriptions actor []) actor subs
      personal := dictSetdefault s.personal actor [] }

/-- `SubscriptionBroker.unsubscribe`: discard the scopes; a missing or
empty subscription set (`if not subs`) is a no-op. -/
def unsubscribe (s : Sys) (actor : String) (scopes : List String) : Sys :=
  match dictGet s.subscriptions actor with
  | none => s
  | some subs =>
    if subs.isEmpty then s
    else
      { s with
          subscriptions := dictSet s.subscriptions actor
            (scopes.foldl (fun acc sc => acc.erase sc) subs) }

/-- The heap key pushed for event `e` on behalf of `actor`:
`(e.priority, deadline-or-inf, seed_for(seed, actor, e.id).random(),
e.id)`. -/
def keyFor (seed : Int) (actor : String) (e : Event) : HeapKey :=
  ⟨e.priority, e.deadline, tieBreak seed actor e.id, e.id⟩

/-- The body of the fan-out loop of `SubscriptionBroker.on_publish` for
one `(actor, scopes)` subscription entry: skip irrelevant actors,
suspend and requeue a preempted active event, then push the new event's
key. -/
def fanoutActor (e : Event) (seed : Int) (s : Sys)
    (item : String × List String) : Sys :=
  let actor := item.1
  let scopes := item.2
  if "shipwide" ∉ e.audience_scope ∧ ¬ e.audience_scope.any (· ∈ scopes) then
    s
  else
    let activeOpt := (s.eq.events.map Prod.snd).find?
      (fun ev => ev.taker = some actor ∧ ev.state = "active")
    let s :=
      match activeOpt with
      | some active =>
        if shouldPreempt active e then
          let (t1, s) := tick s
          let active := ({ active with state := "suspended" }).appendAudit
            t1 actor "suspend"
          let (t2, s) := tick s
          match s.eq.update active t2 with
          | .error _ => s
          | .ok (eq', active') =>
            let s := { s with eq := eq' }
            let heap := (dictGet s.personal actor).getD []
            { s with
                personal := dictSet (dictSetdefault s.personal actor [])
                  actor (heappush heap (keyFor seed actor active')) }
        else s
      | none => s
    let heap := (dictGet s.personal actor).getD []
    { s with
        personal := dictSet (dictSetdefault s.personal actor []) actor
          (heappush heap (keyFor seed actor e)) }

/-- `SubscriptionBroker.on_publish`: run the fan-out body over every
subscription entry in insertion order. -/
def onPublish (s : Sys) (e : Event) (seed : Int) : Sys :=
  s.subscriptions.foldl (fanoutActor e seed) s

/-- The loop of `SubscriptionBroker._next_event_id`: inspect the head
entry, return its id when the event is `queued` or suspended-by-us, else
pop the stale entry and repeat. -/
def nextEventLoop (fuel : Nat) (eq : EventQueue) (heap : List HeapKey)
    (actor : String) : List HeapKey × Option String :=
  match fuel with
  | 0 => (heap, none)
  | fuel + 1 =>
    match heap with
    | [] => (heap, none)
    | k :: _ =>
      let drop := fun () =>
        match heappop heap with
        | some (_, h') => nextEventLoop fuel eq h' actor
        | none => (heap, none)
      match eq.getById k.id with
      | none => drop ()
      | some e =>
        if e.state = "queued" then (heap, some k.id)
        else if e.state = "suspended" ∧ e.taker = some actor then
          (heap, some k.id)
        else drop ()

/-- `SubscriptionBroker._next_event_id`, writing the shrunken heap back
into `_personal`. -/
def nextEventId (s : Sys) (actor : String) : Sys × Option String :=
  match dictGet s.personal actor with
  | none => (s, none)
  | some heap =>
    if heap.isEmpty then (s, none)
    else
      let (h', r) := nextEventLoop heap.length s.eq heap actor
      ({ s with personal := dictSet s.personal actor h' }, r)

/-- `SubscriptionBroker.peek`. -/
def peek (s : Sys) (actor : String) : Sys × Option Event :=
  match nextEventId s actor with
  | (s, none) => (s, none)
  | (s, some id) => (s, s.eq.getById id)

/-- The loop of `SubscriptionBroker.claim`: pop until an entry refers to
a `queued` event, claim it, audit, and propagate through the queue.  The
loop reads and writes only the queue and the clock, which the signature
makes explicit. -/
def claimLoop (fuel : Nat) (eq : EventQueue) (clock : List Int)
    (heap : List HeapKey) (actor : String) :
    EventQueue × List Int × List HeapKey × Option Event :=
  match fuel with
  | 0 => (eq, clock, heap, none)
  | fuel + 1 =>
    match heappop heap with
    | none => (eq, clock, heap, none)
    | some (k, h') =>
      match eq.getById k.id with
      | none => claimLoop fuel eq clock h' actor
      | some e =>
        if e.state ≠ "queued" then claimLoop fuel eq clock h' actor
        else
          let (t1, clock) := nextTs clock
          let e := ({ e with state := "claimed", taker := some actor
                    }).appendAudit t1 actor "claim"
          let (t2, clock) := nextTs clock
          match eq.update e t2 with
          | .error _ => (eq, clock, h', none)
          | .ok (eq', e') => (eq', clock, h', some e')

/-- `SubscriptionBroker.claim`. -/
def claim (s : Sys) (actor : String) : Sys × Option Event :=
  match dictGet s.personal actor with
  | none => (s, none)
  | some heap =>
    if heap.isEmpty then (s, none)
    else
      match claimLoop heap.length s.eq s.clock heap actor with
      | (eq', clock', h', r) =>
        ({ s with
             eq := eq'
             clock := clock'
             personal := dictSet s.personal actor h' }, r)

/-- `SubscriptionBroker.mark_active`: `KeyError` when the event is
missing or not taken by the actor, `ValueError` unless the state is
`claimed` or `suspended`; otherwise transition to `active`, audit,
propagate. -/
def markActive (s : Sys) (actor event_id : String) :
    Sys × Except String Unit :=
  match s.eq.getById event_id with
  | none => (s, .error "KeyError")
  | some e =>
    if e.taker ≠ some actor then (s, .error "KeyError")
    else if e.state ≠ "claimed" ∧ e.state ≠ "suspended" then
      (s, .error "invalid state")
    else
      let (t1, s) := tick s
      let e := ({ e with state := "active" }).appendAudit t1 actor "active"
      let (t2, s) := tick s
      match s.eq.update e t2 with
      | .error _ => (s, .error "KeyError")
      | .ok (eq', _) => ({ s with eq := eq' }, .ok ())

/-- `SubscriptionBroker.done`: `KeyError` when the event is missing or
not taken by the actor; otherwise transition to `done` (no state
precondition appears in the source), audit, propagate. -/
def done (s : Sys) (actor event_id : String) : Sys × Except String Unit :=
  match s.eq.getById event_id with
  | none => (s, .error "KeyError")
  | some e =>
    if e.taker ≠ some actor then (s, .error "KeyError")
    else
      let (t1, s) := tick s
      let e := ({ e with state := "done" }).appendAudit t1 actor "done"
      let (t2, s) := tick s
      match s.eq.update e t2 with
      | .error _ => (s, .error "KeyError")
      | .ok (eq', _) => ({ s with eq := eq' }, .ok ())

/-- `SubscriptionBroker.suspend`: as `done` but requiring state
`active`. -/
def suspend (s : Sys) (actor event_id : String) : Sys × Except String Unit :=
  match s.eq.getById event_id with
  | none => (s, .error "KeyError")
  | some e =>
    if e.taker ≠ some actor then (s, .error "KeyError")
    else if e.state ≠ "active" then (s, .error "invalid state")
    else
      let (t1, s) := tick s
      let e := ({ e with state := "suspended" }).appendAudit t1 actor "suspend"
      let (t2, s) := tick s
      match s.eq.update e t2 with
      | .error _ => (s, .error "KeyError")
      | .ok (eq', _) => ({ s with eq := eq' }, .ok ())

/-- `claim_ts`: the timestamp of the most recent audit entry with action
`claim`, `0` when there is none. -/
def mostRecentClaimTs (audit : List AuditEntry) : Int :=
  match audit.reverse.find? (fun a => a.action = "claim") with
  | some a => a.ts
  | none => 0

/-- The body of `check_claim_ttl` for one event id of the snapshot:
skip unless currently `claimed` with no progress and a stale claim
timestamp; otherwise requeue, clear the taker, escalate to `officers`,
audit, propagate and re-fan-out. -/
def reclaimStep (now_ms ttl_s seed : Int) (acc : Sys × List String)
    (eid : String) : Sys × List String :=
  let s := acc.1
  let expired := acc.2
  match s.eq.getById eid with
  | none => acc
  | some e =>
    if e.state ≠ "claimed" ∨ e.progress > 0 then acc
    else
      let claim_ts := mostRecentClaimTs e.audit
      if claim_ts ≠ 0 ∧ now_ms - claim_ts > ttl_s * 1000 then
        let e := { e with state := "queued", taker := none }
        let e :=
          if "officers" ∈ e.audience_scope then e
          else { e with audience_scope := e.audience_scope ++ ["officers"] }
        let (t1, s) := tick s
        let e := e.appendAudit t1 "system" "claim_timeout"
        let (t2, s) := tick s
        match s.eq.update e t2 with
        | .error _ => (s, expired)
        | .ok (eq', e') =>
          (onPublish { s with eq := eq' } e' seed, expired ++ [e.id])
      else acc

/-- `check_claim_ttl(broker, now_ms, claim_ttl_s, save_seed)`: sweep a
snapshot of the stored events and return the reclaimed ids. -/
def checkClaimTtl (s : Sys) (now_ms : Int) (ttl_s : Int) (seed : Int) :
    Sys × List String :=
  (s.eq.events.map Prod.fst).foldl (reclaimStep now_ms ttl_s seed) (s, [])

/-! ## Operation sequences

One constructor per operation the harness can direct at the queue or the
broker; `runOps` folds a sequence over a starting state.  Erroring calls
leave the state as the source leaves it (a raise happens before any
mutation). -/

/-- `EventQueue.publish` wrapped as a state transition (the raise leaves
the state unchanged). -/
def publishOp (s : Sys) (e : Event) : Sys × Except String Unit :=
  match s.eq.publish e with
  | .error msg => (s, .error msg)
  | .ok eq' => ({ s with eq := eq' }, .ok ())

/-- `EventQueue.update` wrapped as a state transition: the `NotFound`
raise happens before `append_audit`, so no clock reading is drawn on
failure. -/
def updateOp (s : Sys) (e : Event) : Sys × Except String Event :=
  match s.eq.getById e.id with
  | none => (s, .error "event not found")
  | some _ =>
    let (t, s) := tick s
    match s.eq.update e t with
    | .error msg => (s, .error msg)
    | .ok (eq', e') => ({ s with eq := eq' }, .ok e')

/-- One externally driven operation. -/
inductive Op where
  | subscribe (actor : String) (scopes : List String)
  | unsubscribe (actor : String) (scopes : List String)
  | publish (e : Event)
  | fanout (e : Event) (seed : Int)
  | peek (actor : String)
  | claim (actor : String)
  | markActive (actor event_id : String)
  | suspend (actor event_id : String)
  | done (actor event_id : String)
  | update (e : Event)
  | sweep (now_ms ttl_s seed : Int)
  deriving Repr, DecidableEq

/-- Apply one operation, keeping only the state. -/
def applyOp (s : Sys) (op : Op) : Sys :=
  match op with
  | .subscribe a sc => subscribe s a sc
  | .unsubscribe a sc => unsubscribe s a sc
  | .publish e => (publishOp s e).1
  | .fanout e seed => onPublish s e seed
  | .peek a => (peek s a).1
  | .claim a => (claim s a).1
  | .markActive a id => (markActive s a id).1
  | .suspend a id => (suspend s a id).1
  | .done a id => (done s a id).1
  | .update e => (updateOp s e).1
  | .sweep now ttl seed => (checkClaimTtl s now ttl seed).1

/-- Run a whole operation sequence. -/
def runOps (s : Sys) (ops : List Op) : Sys := ops.foldl applyOp s

/-- A fresh system: empty queue of the given capacity, no subscribers,
and the given stream of upcoming clock readings. -/
def initSys (capacity : Int) (clock : List Int) : Sys :=
  { eq := { capacity := capacity }, clock := clock }

/-! ## Concrete instances used by witnesses and counterexamples -/

/-- A queued sleep event addressed to alice. -/
def evC1 : Event :=
  { id := "E1", type := "crew.sleep", ts_ms := 0,
    audience_scope := ["private:alice"], priority := 50 }

/-- Publish, fan out, claim and complete `evC1` for alice. -/
def traceC1 : List Op :=
  [.subscribe "alice" ["private:alice"], .publish evC1, .fanout evC1 1,
   .claim "alice", .done "alice" "E1"]

/-- The state after `traceC1`: `E1` is `done` and alice's heap is
empty. -/
def sysC1 : Sys := runOps (initSys 10000 [10, 11, 12, 13, 14, 15]) traceC1

/-- A generic queued event used to fill queues. -/
def evGen (i : String) : Event :=
  { id := i, type := "task", ts_ms := 0, audience_scope := ["shipwide"],
    priority := 30 }

/-- A capacity-2 queue already holding two events. -/
def sysC8 : Sys :=
  runOps (initSys 2 []) [.publish (evGen "A"), .publish (evGen "B")]

/-- The third event, rejected by `sysC8`. -/
def evC8c : Event := evGen "C"

/-- A priority-4 event: positive priority strictly below
`MIN_AGED_PRIORITY`. -/
def evC6 : Event :=
  { id := "A4", type := "task", ts_ms := 0, audience_scope := ["shipwide"],
    priority := 4 }

/-- A priority-40 repair-grade event for the aging witness. -/
def evC6w : Event :=
  { id := "A40", type := "task.repair", ts_ms := 0,
    audience_scope := ["department:engineering"], priority := 40 }

/-- First queued event for the double-active trace. -/
def evC3a : Event :=
  { id := "F1", type := "task", ts_ms := 0, audience_scope := ["shipwide"],
    priority := 50 }

/-- Second queued event for the double-active trace (different
priority so heap comparisons never consult the tie-break). -/
def evC3b : Event :=
  { id := "F2", type := "task", ts_ms := 0, audience_scope := ["shipwide"],
    priority := 60 }

/-- Claim and mark active twice in a row through the broker. -/
def traceC3 : List Op :=
  [.subscribe "alice" ["shipwide"], .publish evC3a, .fanout evC3a 1,
   .claim "alice", .markActive "alice" "F1", .publish evC3b, .fanout evC3b 1,
   .claim "alice", .markActive "alice" "F2"]

/-- The state with two simultaneously active events taken by alice. -/
def sysC3 : Sys :=
  runOps (initSys 10000 [1, 2, 3, 4, 5, 6, 7, 8, 9, 10, 11, 12]) traceC3

/-- The S6 event: engineering category, departmental scope. -/
def evC9 : Event :=
  { id := "EE", type := "task", ts_ms := 0,
    audience_scope := ["department:engineering"],
    category := some "engineering", priority := 30 }

/-- The S6 update: same id, bridge category, shipwide scope. -/
def evC9' : Event :=
  { evC9 with audience_scope := ["shipwide"], category := some "bridge" }

/-- A queue holding only `evC9`. -/
def eqC9 : EventQueue :=
  (runOps (initSys 10000 [7, 8]) [.publish evC9]).eq

/-- Well-formed event store: keys are unique and each event is stored
under its own id (true of every store the queue builds). -/
def EqWf (d : List (String × Event)) : Prop :=
  (d.map Prod.fst).Nodup ∧ ∀ p ∈ d, p.2.id = p.1

/-- A claimed event with a stale claim audit record, for the claim-TTL
witness. -/
def evC7 : Event :=
  { id := "W7", type := "crew.sleep", ts_ms := 0,
    audience_scope := ["private:alice"], priority := 50,
    state := "claimed", taker := some "alice",
    audit := [⟨100, "alice", "claim"⟩, ⟨101, "system", "update"⟩] }

/-- A system holding only the stale claimed event, with no
subscribers. -/
def sysC7 : Sys :=
  { eq := { capacity := 10000, events := [("W7", evC7)],
            by_category := [], by_scope := [("private:alice", ["W7"])] }
    clock := [500, 501] }

/-- What C7 asserts about a reclaimed event after the sweep. -/
def C7Post (id : String) (s : Sys) : Prop :=
  ∃ e', s.eq.getById id = some e' ∧ e'.state = "queued" ∧ e'.taker = none
    ∧ "officers" ∈ e'.audience_scope

/-- What C7 asserts about a reclaimed event before the sweep. -/
def C7Pre (id : String) (s0 : Sys) (now ttl : Int) : Prop :=
  ∃ e, s0.eq.getById id = some e ∧ e.state = "claimed" ∧ e.progress ≤ 0
    ∧ mostRecentClaimTs e.audit ≠ 0
    ∧ now - mostRecentClaimTs e.audit > ttl * 1000

/-- An active, preemptible event held by `bob`, for the preemption
witness. -/
def evC5x : Event :=
  { id := "X5", type := "task.routine", ts_ms := 0,
    audience_scope := ["shipwide"], priority := 50,
    state := "active", taker := some "bob",
    audit := [⟨10, "bob", "claim"⟩, ⟨11, "bob", "active"⟩] }

/-- A strictly higher-priority incoming event, for the preemption
witness. -/
def evC5e : Event :=
  { id := "E5", type := "alert.fire", ts_ms := 0,
    audience_scope := ["shipwide"], priority := 10 }

/-- One subscriber holding one active event and an empty heap. -/
def sysC5 : Sys :=
  { eq := { capacity := 10000, events := [("X5", evC5x)],
            by_category := [], by_scope := [("shipwide", ["X5"])] }
    personal := [("bob", [])]
    subscriptions := [("bob", ["shipwide"])]
    clock := [700, 701] }

/-- A shipwide event with explicit id used by the determinism analysis. -/
def evC2 : Event :=
  { id := "C2", type := "task", ts_ms := 0, audience_scope := ["shipwide"] }

/-- The same operation sequence run twice under different wall clocks:
publish then republish through `update`. -/
def opsC2 : List Op := [.publish evC2, .update evC2]

/-- Every word of an MT19937 state is a 32-bit machine word. -/
def mtBounded (mt : List Nat) : Prop := ∀ i, mtGet mt i < 2 ^ 32

/-- The four terminal lifecycle states. -/
def isTerminal (st : String) : Bool :=
  st = "done" ∨ st = "failed" ∨ st = "expired" ∨ st = "cancelled"

/-- Spec invariant 5, one direction, for a single event: a taker is
present whenever the state is claimed, active or suspended. -/
def takerOk (e : Event) : Bool :=
  !(e.state = "claimed" ∨ e.state = "active" ∨ e.state = "suspended")
    || e.taker.isSome

/-- Externally injected records (publish, update) must satisfy
`takerOk`; broker transitions need no side condition. -/
def opTakerOk : Op → Bool
  | .publish e => takerOk e
  | .update e => takerOk e
  | _ => true

/-- Every stored event satisfies `P`. -/
def DictAll (P : Event → Bool) (d : List (String × Event)) : Bool :=
  d.all (fun p => P p.2)

/-- Indicator: the event is `active` and taken by `a`. -/
def actInd (a : String) (e : Event) : Nat :=
  if e.taker = some a ∧ e.state = "active" then 1 else 0

/-- How many stored events are `active` with taker `a`. -/
def activeCount (d : List (String × Event)) (a : String) : Nat :=
  (d.filter (fun p => p.2.taker = some a ∧ p.2.state = "active")).length

/-- At most one active event per actor. -/
def ActiveInv (s : Sys) : Prop := ∀ a, activeCount s.eq.events a ≤ 1

/-- Per-step side condition under which the at-most-one-active invariant
is preserved: `mark_active` only fires for an actor holding no active
event, and externally injected records are not already `active`. -/
def opSafeC3 (s : Sys) : Op → Bool
  | .markActive a _ => activeCount s.eq.events a = 0
  | .publish e => e.state ≠ "active"
  | .update e => e.state ≠ "active"
  | _ => true

/-- Every step of the run satisfies `opSafeC3` at its own pre-state. -/
def SafeRun (s : Sys) : List Op → Bool
  | [] => true
  | op :: rest => opSafeC3 s op && SafeRun (applyOp s op) rest

/-! ## Dictionary toolkit -/

theorem dictGet_dictSet_self {α : Type} (d : List (String × α)) (k : String)
    (v : α) : dictGet (dictSet d k v) k = some v := by
  induction d with
  | nil => simp [dictSet, dictGet]
  | cons p rest ih =>
    obtain ⟨k', v'⟩ := p
    by_cases h : k' = k
    · simp [dictSet, dictGet, h]
    · simp [dictSet, dictGet, h, ih]

theorem dictGet_dictSet_ne {α : Type} (d : List (String × α)) (k k' : String)
    (v : α) (h : k' ≠ k) : dictGet (dictSet d k v) k' = dictGet d k' := by
  induction d with
  | nil => simp [dictSet, dictGet, Ne.symm h]
  | cons p rest ih =>
    obtain ⟨k0, v0⟩ := p
    by_cases h0 : k0 = k
    · subst h0
      simp [dictSet, dictGet, Ne.symm h]
    · simp [dictSet, dictGet, h0, ih]

theorem dictGet_append_single_self {α : Type} (d : List (String × α))
    (k : String) (v : α) :
    dictGet d k = none → dictGet (d ++ [(k, v)]) k = some v := by
  induction d with
  | nil => intro _; simp [dictGet]
  | cons p rest ih =>
    obtain ⟨k0, v0⟩ := p
    intro hd
    by_cases h0 : k0 = k
    · simp [dictGet, h0] at hd
    · simp [dictGet, h0] at hd ⊢
      exact ih hd

theorem dictGet_append_single_ne {α : Type} (d : List (String × α))
    (k k' : String) (v : α) (h : k' ≠ k) :
    dictGet (d ++ [(k, v)]) k' = dictGet d k' := by
  induction d with
  | nil => simp [dictGet, Ne.symm h]
  | cons p rest ih =>
    obtain ⟨k0, v0⟩ := p
    by_cases h0 : k0 = k' <;> simp [dictGet, h0, ih]

theorem dictGet_dictSetdefault_self {α : Type} (d : List (String × α))
    (k : String) (dflt : α) :
    dictGet (dictSetdefault d k dflt) k = some ((dictGet d k).getD dflt) := by
  unfold dictSetdefault
  cases hd : dictGet d k with
  | some v => simp [hd]
  | none => simp [hd, dictGet_append_single_self d k dflt hd]

theorem dictGet_dictSetdefault_ne {α : Type} (d : List (String × α))
    (k k' : String) (dflt : α) (h : k' ≠ k) :
    dictGet (dictSetdefault d k dflt) k' = dictGet d k' := by
  unfold dictSetdefault
  cases hd : dictGet d k with
  | some v => rfl
  | none => exact dictGet_append_single_ne d k k' dflt h

/-! ## Claim C8 — publish capacity policy -/

/-- C8: `publish(e)` fails exactly when the stored-event count has
already reached capacity; the failing call leaves the primary map and
both indices untouched, and a queue with zero or negative capacity never
accepts a publish. -/
theorem publish_capacity (s : Sys) (e : Event) :
    ((∃ msg, (publishOp s e).2 = .error msg) ↔
      (s.eq.events.length : Int) ≥ s.eq.capacity)
    ∧ ((s.eq.events.length : Int) ≥ s.eq.capacity → (publishOp s e).1 = s)
    ∧ (s.eq.capacity ≤ 0 →
        (publishOp s e).2 = .error "queue capacity exceeded"
        ∧ (publishOp s e).1 = s) := by
  unfold publishOp EventQueue.publish
  by_cases h : (s.eq.events.length : Int) ≥ s.eq.capacity
  · exact ⟨⟨fun _ => h,
      fun _ => ⟨"queue capacity exceeded", by simp [h]⟩⟩,
      fun _ => by simp [h], fun _ => by simp [h]⟩
  · refine ⟨⟨fun ⟨msg, hmsg⟩ => ?_, fun hcap => absurd hcap h⟩,
      fun hcap => absurd hcap h, fun hcap => ?_⟩
    · simp [h] at hmsg
    · exact absurd (le_trans hcap (Int.ofNat_nonneg _)) h

/-- C8 witness: a queue holding two events at capacity two rejects a
third publish and is left unchanged. -/
theorem publish_capacity_witness :
    ((sysC8.eq.events.length : Int) ≥ sysC8.eq.capacity) ∧
    (publishOp sysC8 evC8c).1 = sysC8 :=
  ⟨by decide, (publish_capacity sysC8 evC8c).2.1 (by decide)⟩

/-! ## Claim C6 — aging monotonicity and floor -/

/-- C6 counterexample: an event with priority `4 > 0` has
`effective_priority` `4 < MIN_AGED_PRIORITY` while un-aged, and its
effective priority rises from 4 to 5 as the wait crosses the aging
threshold, so neither the lower bound nor monotonicity holds for
`0 < priority < 5`. -/
theorem effective_priority_low_counterexample :
    (0 : Int) < evC6.priority
    ∧ (0 : Int) ≤ 121000
    ∧ effectivePriority evC6 0 = 4
    ∧ effectivePriority evC6 121000 = 5
    ∧ ¬ (effectivePriority evC6 121000 ≤ effectivePriority evC6 0)
    ∧ ¬ (MIN_PRIORITY ≤ effectivePriority evC6 0) := by
  refine ⟨by decide, by decide, by decide, by decide, by decide, by decide⟩

/-- C6 amended: for every event with `priority ≥ MIN_AGED_PRIORITY (5)`,
`effective_priority` is non-increasing in the evaluation time (hence in
`wait_s`) and bounded below by `MIN_AGED_PRIORITY`. -/
theorem effective_priority_aging (e : Event)
    (h5 : MIN_PRIORITY ≤ e.priority) :
    (∀ n1 n2 : Int, n1 ≤ n2 →
      effectivePriority e n2 ≤ effectivePriority e n1)
    ∧ (∀ n : Int, MIN_PRIORITY ≤ effectivePriority e n) := by
  have hp0 : ¬ e.priority = 0 := by
    simp only [MIN_PRIORITY] at h5; omega
  have hfd : ∀ a : Int, a.fdiv 1000 = a / 1000 := fun a =>
    Int.fdiv_eq_ediv a (by norm_num)
  have hfd30 : ∀ a : Int, a.fdiv 30 = a / 30 := fun a =>
    Int.fdiv_eq_ediv a (by norm_num)
  have h5' : (5 : Int) ≤ e.priority := by simpa [MIN_PRIORITY] using h5
  constructor
  · intro n1 n2 h12
    simp only [effectivePriority, STEP_S, hfd, hfd30, AGING_S, MIN_PRIORITY,
      if_neg hp0]
    have hmono : (n1 - e.ts_ms) / 1000 ≤ (n2 - e.ts_ms) / 1000 :=
      Int.ediv_le_ediv (by norm_num) (by omega)
    set w1 := max 0 ((n1 - e.ts_ms) / 1000) with hw1
    set w2 := max 0 ((n2 - e.ts_ms) / 1000) with hw2
    have hw : w1 ≤ w2 := max_le_max le_rfl hmono
    have h30 : w1 / 30 ≤ w2 / 30 := Int.ediv_le_ediv (by norm_num) hw
    by_cases ha : w1 ≤ 120
    · by_cases hb : w2 ≤ 120
      · rw [if_pos ha, if_pos hb]
      · rw [if_pos ha, if_neg hb, max_le_iff]
        exact ⟨h5', by omega⟩
    · have hb : ¬ w2 ≤ 120 := by omega
      rw [if_neg ha, if_neg hb]
      exact max_le_max le_rfl (by omega)
  · intro n
    simp only [effectivePriority, MIN_PRIORITY, if_neg hp0]
    split
    · exact h5'
    · exact le_max_left _ _

/-- C6 amended witness: a priority-40 repair event ages monotonically
between evaluation times 0 and 130000 ms and stays at or above the
floor. -/
theorem effective_priority_aging_witness :
    MIN_PRIORITY ≤ evC6w.priority
    ∧ effectivePriority evC6w 130000 ≤ effectivePriority evC6w 0
    ∧ MIN_PRIORITY ≤ effectivePriority evC6w 2000000 :=
  ⟨by decide,
   (effective_priority_aging evC6w (by decide)).1 0 130000 (by decide),
   (effective_priority_aging evC6w (by decide)).2 2000000⟩

/-! ## 32-bit invariants of the MT19937 state -/

theorem foldl_preserve {α β : Type} (P : α → Prop) (f : α → β → α)
    (l : List β) (init : α) (h0 : P init)
    (hstep : ∀ acc x, P acc → P (f acc x)) : P (l.foldl f init) := by
  induction l generalizing init with
  | nil => exact h0
  | cons x rest ih => exact ih _ (hstep _ _ h0)

theorem mtBounded_set {mt : List Nat} (j v : Nat) (hmt : mtBounded mt)
    (hv : v < 2 ^ 32) : mtBounded (mt.set j v) := by
  intro i
  by_cases hij : i = j
  · subst hij
    by_cases hl : i < mt.length
    · simpa [mtGet, List.getD, List.getElem?_set_self, hl] using hv
    · rw [List.set_eq_of_length_le (by omega)]
      exact hmt i
  · simp only [mtGet, List.getD, List.get?_eq_getElem?]
    rw [List.getElem?_set_ne (Ne.symm hij)]
    simpa [mtGet, List.getD] using hmt i

theorem and_lt_32 (x m : Nat) (hm : m < 2 ^ 32) : x &&& m < 2 ^ 32 :=
  lt_of_le_of_lt Nat.and_le_right hm

theorem mask32_and_lt (x : Nat) : x &&& mask32 < 2 ^ 32 :=
  and_lt_32 x mask32 (by norm_num [mask32])

theorem shiftRight_le_self (x k : Nat) : x >>> k ≤ x := by
  rw [Nat.shiftRight_eq_div_pow]
  exact Nat.div_le_self x (2 ^ k)

theorem mtBounded_initGenrand (s : Nat) : mtBounded (mtInitGenrand s) := by
  unfold mtInitGenrand
  refine foldl_preserve mtBounded _ _ _ ?_ ?_
  · refine mtBounded_set _ _ (fun i => ?_) (mask32_and_lt s)
    simp only [mtGet, List.getD, List.get?_eq_getElem?, List.getElem?_replicate]
    split <;> norm_num
  · intro acc x h
    exact mtBounded_set _ _ h (mask32_and_lt _)

theorem mtBounded_mixKey (key : List Nat) (st : List Nat × Nat × Nat)
    (x : Nat) (h : mtBounded st.1) : mtBounded (mtMixKey key st x).1 := by
  simp only [mtMixKey]
  split
  · exact mtBounded_set _ _ (mtBounded_set _ _ h (mask32_and_lt _))
      ((mtBounded_set _ _ h (mask32_and_lt _)) _)
  · exact mtBounded_set _ _ h (mask32_and_lt _)

theorem mtBounded_mixConst (st : List Nat × Nat) (x : Nat)
    (h : mtBounded st.1) : mtBounded (mtMixConst st x).1 := by
  simp only [mtMixConst]
  split
  · exact mtBounded_set _ _ (mtBounded_set _ _ h (mask32_and_lt _))
      ((mtBounded_set _ _ h (mask32_and_lt _)) _)
  · exact mtBounded_set _ _ h (mask32_and_lt _)

theorem mtBounded_initByArray (key : List Nat) :
    mtBounded (mtInitByArray key) := by
  simp only [mtInitByArray]
  exact mtBounded_set _ _
    (foldl_preserve (fun st : List Nat × Nat => mtBounded st.1) _ _ _
      (foldl_preserve (fun st : List Nat × Nat × Nat => mtBounded st.1) _ _ _
        (mtBounded_initGenrand 19650218)
        (fun acc x h => mtBounded_mixKey key acc x h))
      (fun acc x h => mtBounded_mixConst acc x h))
    (by norm_num)

theorem mtMag_lt (y : Nat) : mtMag y < 2 ^ 32 := by
  unfold mtMag
  split <;> norm_num

theorem mtBounded_twistAt (mt : List Nat) (kk : Nat) (h : mtBounded mt) :
    mtBounded (mtTwistAt mt kk) := by
  simp only [mtTwistAt]
  have hy : ((mtGet mt kk) &&& 0x80000000) |||
      ((mtGet mt ((kk + 1) % mtN)) &&& 0x7fffffff) < 2 ^ 32 :=
    Nat.or_lt_two_pow (and_lt_32 _ _ (by norm_num)) (and_lt_32 _ _ (by norm_num))
  exact mtBounded_set _ _ h (Nat.xor_lt_two_pow
    (Nat.xor_lt_two_pow (h _) (lt_of_le_of_lt (shiftRight_le_self _ _) hy))
    (mtMag_lt _))

theorem mtBounded_generate (mt : List Nat) (h : mtBounded mt) :
    mtBounded (mtGenerate mt) :=
  foldl_preserve mtBounded _ _ _ h (fun acc x hb => mtBounded_twistAt acc x hb)

theorem mtTemper_lt (y : Nat) (h : y < 2 ^ 32) : mtTemper y < 2 ^ 32 := by
  simp only [mtTemper]
  have s1 : y ^^^ (y >>> 11) < 2 ^ 32 :=
    Nat.xor_lt_two_pow h (lt_of_le_of_lt (shiftRight_le_self _ _) h)
  have s2 : (y ^^^ (y >>> 11)) ^^^ (((y ^^^ (y >>> 11)) <<< 7) &&& 0x9d2c5680)
      < 2 ^ 32 := Nat.xor_lt_two_pow s1 (and_lt_32 _ _ (by norm_num))
  have s3 : ((y ^^^ (y >>> 11)) ^^^ (((y ^^^ (y >>> 11)) <<< 7) &&& 0x9d2c5680))
      ^^^ ((((y ^^^ (y >>> 11)) ^^^ (((y ^^^ (y >>> 11)) <<< 7) &&& 0x9d2c5680))
        <<< 15) &&& 0xefc60000) < 2 ^ 32 :=
    Nat.xor_lt_two_pow s2 (and_lt_32 _ _ (by norm_num))
  exact Nat.xor_lt_two_pow s3 (lt_of_le_of_lt (shiftRight_le_self _ _) s3)

theorem res53_bound (a b : Nat) (ha : a < 2 ^ 27) (hb : b < 2 ^ 26) :
    0 ≤ ((a * 67108864 + b : Nat) : ℚ) / 9007199254740992 ∧
    ((a * 67108864 + b : Nat) : ℚ) / 9007199254740992 < 1 := by
  constructor
  · positivity
  · rw [div_lt_one (by norm_num)]
    have hn : a * 67108864 + b < 9007199254740992 := by
      norm_num at ha hb; omega
    exact_mod_cast hn

theorem shiftRight5_lt (t : Nat) (h : t < 2 ^ 32) : t >>> 5 < 2 ^ 27 := by
  rw [Nat.shiftRight_eq_div_pow]
  exact Nat.div_lt_of_lt_mul (by norm_num at h ⊢; omega)

theorem shiftRight6_lt (t : Nat) (h : t < 2 ^ 32) : t >>> 6 < 2 ^ 26 := by
  rw [Nat.shiftRight_eq_div_pow]
  exact Nat.div_lt_of_lt_mul (by norm_num at h ⊢; omega)

theorem mtRandomFromState_bound (mt : List Nat) (h : mtBounded mt) :
    0 ≤ mtRandomFromState mt ∧ mtRandomFromState mt < 1 := by
  have hg : mtBounded (mtGenerate mt) := mtBounded_generate mt h
  unfold mtRandomFromState
  exact res53_bound _ _ (shiftRight5_lt _ (mtTemper_lt _ (hg 0)))
    (shiftRight6_lt _ (mtTemper_lt _ (hg 1)))

theorem mtRandom_bound (seed : Nat) :
    0 ≤ mtRandom seed ∧ mtRandom seed < 1 :=
  mtRandomFromState_bound _ (mtBounded_initByArray _)

/-! ## Claim C2 — determinism -/

/-- C2 counterexample: with the identical save seed and identical
operation sequence, two runs whose ambient wall clocks differ produce
different audit bytes (the audit `ts` field is drawn from
`utc_ms_now()`), and two `new_ulid` calls whose `os.urandom` bytes
differ produce different event identifiers, so independent runs are not
byte-identical. -/
theorem determinism_counterexample :
    (((runOps (initSys 10 [1000]) opsC2).eq.getById "C2").map Event.audit ≠
      ((runOps (initSys 10 [2000]) opsC2).eq.getById "C2").map Event.audit)
    ∧ newUlid 0 0 ≠ newUlid 0 1 :=
  ⟨by decide, by decide⟩

/-- C2 amended: runs are deterministic once the ambient inputs are
fixed: identical `(save_seed, operation_sequence)` together with
identical wall-clock streams (and the event identifiers carried by the
operations) give identical states — in particular byte-identical audit
logs and identical per-actor heaps — and the tie-break
`seed_for(save_seed, actor_id, event_id).random()` is a pure function of
its arguments with value in `[0, 1)`. -/
theorem run_determinism (cap : Int) (ops : List Op) (c1 c2 : List Int)
    (h : c1 = c2) :
    runOps (initSys cap c1) ops = runOps (initSys cap c2) ops
    ∧ (∀ sd : Int, ∀ a i : String,
        0 ≤ tieBreak sd a i ∧ tieBreak sd a i < 1) := by
  subst h
  exact ⟨rfl, fun sd a i => mtRandom_bound _⟩

/-- C2 amended witness: the two-publish sequence at a concrete clock,
and the concrete tie-break bound for seed 42. -/
theorem run_determinism_witness :
    runOps (initSys 10 [1000]) opsC2 = runOps (initSys 10 [1000]) opsC2
    ∧ (0 ≤ tieBreak 42 "alice" "C2" ∧ tieBreak 42 "alice" "C2" < 1) :=
  ⟨(run_determinism 10 opsC2 [1000] [1000] rfl).1,
   (run_determinism 10 opsC2 [1000] [1000] rfl).2 42 "alice" "C2"⟩

/-! ## Claim C10 — unsubscribe frame -/

theorem nextEventId_snd_congr (s s' : Sys) (b : String)
    (heq : s.eq = s'.eq) (hp : s.personal = s'.personal) :
    (nextEventId s b).2 = (nextEventId s' b).2 := by
  unfold nextEventId
  rw [hp, heq]
  cases dictGet s'.personal b with
  | none => rfl
  | some heap =>
    by_cases he : heap.isEmpty <;> simp [he]

theorem peek_snd_congr (s s' : Sys) (b : String)
    (heq : s.eq = s'.eq) (hp : s.personal = s'.personal) :
    (peek s b).2 = (peek s' b).2 := by
  have h2 := nextEventId_snd_congr s s' b heq hp
  have hfst : (nextEventId s b).1.eq = s.eq := by
    unfold nextEventId
    cases hd : dictGet s.personal b with
    | none => rfl
    | some heap => by_cases he : heap.isEmpty <;> simp [he]
  have hfst' : (nextEventId s' b).1.eq = s'.eq := by
    unfold nextEventId
    cases hd : dictGet s'.personal b with
    | none => rfl
    | some heap => by_cases he : heap.isEmpty <;> simp [he]
  unfold peek
  rcases h1 : nextEventId s b with ⟨t1, r1⟩
  rcases h1' : nextEventId s' b with ⟨t1', r1'⟩
  rw [h1, h1'] at h2
  simp only at h2
  rw [h1] at hfst
  rw [h1'] at hfst'
  simp only at hfst hfst'
  subst h2
  cases r1 with
  | none => rfl
  | some id =>
    show t1.eq.getById id = t1'.eq.getById id
    rw [hfst, hfst', heq]

theorem claim_snd_congr (s s' : Sys) (b : String) (heq : s.eq = s'.eq)
    (hp : s.personal = s'.personal) (hc : s.clock = s'.clock) :
    (claim s b).2 = (claim s' b).2 := by
  unfold claim
  rw [hp, heq, hc]
  cases dictGet s'.personal b with
  | none => rfl
  | some heap =>
    by_cases he : heap.isEmpty
    · simp [he]
    · simp only [he, if_false]
      rcases claimLoop heap.length s'.eq s'.clock heap b with ⟨eq', c', h', r⟩
      rfl

/-- C10: `unsubscribe(actor, *scopes)` changes at most the actor's own
subscription set: the queue (primary map and indices), every per-actor
heap, the clock, and every other actor's subscriptions are untouched,
and both `peek` and `claim` return the same event for every actor
afterwards — an event already fanned out stays reachable. -/
theorem unsubscribe_frame (s : Sys) (actor : String) (scopes : List String) :
    (unsubscribe s actor scopes).eq = s.eq
    ∧ (unsubscribe s actor scopes).personal = s.personal
    ∧ (unsubscribe s actor scopes).clock = s.clock
    ∧ (∀ b, b ≠ actor →
        dictGet (unsubscribe s actor scopes).subscriptions b =
          dictGet s.subscriptions b)
    ∧ (∀ b, (peek (unsubscribe s actor scopes) b).2 = (peek s b).2)
    ∧ (∀ b, (claim (unsubscribe s actor scopes) b).2 = (claim s b).2) := by
  have hframe : (unsubscribe s actor scopes).eq = s.eq
      ∧ (unsubscribe s actor scopes).personal = s.personal
      ∧ (unsubscribe s actor scopes).clock = s.clock := by
    unfold unsubscribe
    cases dictGet s.subscriptions actor with
    | none => exact ⟨rfl, rfl, rfl⟩
    | some subs =>
      by_cases he : subs.isEmpty <;> simp [he]
  refine ⟨hframe.1, hframe.2.1, hframe.2.2, ?_, ?_, ?_⟩
  · intro b hb
    unfold unsubscribe
    cases dictGet s.subscriptions actor with
    | none => rfl
    | some subs =>
      by_cases he : subs.isEmpty
      · simp [he]
      · simp only [he, if_false]
        exact dictGet_dictSet_ne _ _ _ _ hb
  · intro b
    exact peek_snd_congr _ s b hframe.1 hframe.2.1
  · intro b
    exact claim_snd_congr _ s b hframe.1 hframe.2.1 hframe.2.2

/-- C10 witness: after alice unsubscribes from all scopes in the
preemption scenario state, the queue is unchanged and her previously
fanned-out suspended event is still what `peek` returns. -/
theorem unsubscribe_frame_witness :
    (unsubscribe sysC1 "alice" ["private:alice"]).eq = sysC1.eq
    ∧ ("bob" ≠ "alice" →
        dictGet (unsubscribe sysC1 "alice" ["private:alice"]).subscriptions
          "bob" = dictGet sysC1.subscriptions "bob")
    ∧ (peek (unsubscribe sysC1 "alice" ["private:alice"]) "alice").2 =
        (peek sysC1 "alice").2 :=
  ⟨(unsubscribe_frame sysC1 "alice" ["private:alice"]).1,
   fun hb => (unsubscribe_frame sysC1 "alice" ["private:alice"]).2.2.2.1
     "bob" hb,
   (unsubscribe_frame sysC1 "alice" ["private:alice"]).2.2.2.2.1 "alice"⟩

/-! ## Claim C1 — terminal states and lifecycle transitions -/

theorem tick_eq_proj (s : Sys) : (tick s).2.eq = s.eq := by
  unfold tick
  cases s.clock <;> rfl

theorem update_ok_getById (eq : EventQueue) (e : Event) (ts : Int)
    (hold : (dictGet eq.events e.id).isSome) :
    ∃ eq', eq.update e ts =
        .ok (eq', e.appendAudit ts "system" "update")
      ∧ eq'.getById e.id = some (e.appendAudit ts "system" "update")
      ∧ eq'.events = dictSet eq.events e.id (e.appendAudit ts "system" "update") := by
  unfold EventQueue.update
  cases hd : dictGet eq.events e.id with
  | none => rw [hd] at hold; simp at hold
  | some old =>
    simp only [hd]
    exact ⟨_, rfl, by
      unfold EventQueue.getById
      exact dictGet_dictSet_self _ _ _, rfl⟩

theorem done_ok (s : Sys) (a id : String) (e : Event)
    (he : s.eq.getById id = some e) (hid : e.id = id)
    (hT : e.taker = some a) :
    (done s a id).2 = .ok ()
    ∧ ((done s a id).1.eq.getById id).map Event.state = some "done"
    ∧ ((done s a id).1.eq.getById id).map Event.taker = some (some a) := by
  unfold done
  simp only [he]
  have hTne : ¬ (e.taker ≠ some a) := by simp [hT]
  rw [if_neg hTne]
  rcases ht1 : tick s with ⟨t1, s1⟩
  simp only [ht1]
  rcases ht2 : tick s1 with ⟨t2, s2⟩
  simp only [ht2]
  have hs1 : s1.eq = s.eq := by
    have h := tick_eq_proj s; rw [ht1] at h; exact h
  have hs2 : s2.eq = s.eq := by
    have h := tick_eq_proj s1; rw [ht2] at h; rw [h, hs1]
  set e2 := ({ e with state := "done" }).appendAudit t1 a "done" with he2
  have hi2 : e2.id = id := hid
  have hold : (dictGet s2.eq.events e2.id).isSome := by
    rw [hs2, hi2]
    unfold EventQueue.getById at he
    rw [he]
    rfl
  obtain ⟨eq', hu, hget, hev⟩ := update_ok_getById s2.eq e2 t2 hold
  rw [hu]
  refine ⟨rfl, ?_, ?_⟩
  · show (eq'.getById id).map Event.state = some "done"
    rw [← hi2, hget]
    rfl
  · show (eq'.getById id).map Event.taker = some (some a)
    rw [← hi2, hget]
    show some e.taker = some (some a)
    rw [hT]

/-- C1 counterexample: after a publish/fan-out/claim/`done` trace the
event `E1` is in the terminal state `done` yet a second
`done("alice", "E1")` succeeds (no error) and modifies the event: its
audit log grows from 4 to 6 records, so transitions from terminal
states are neither rejected nor effect-free. -/
theorem terminal_done_counterexample :
    (sysC1.eq.getById "E1").map Event.state = some "done"
    ∧ (done sysC1 "alice" "E1").2 = .ok ()
    ∧ (sysC1.eq.getById "E1").map (fun e => e.audit.length) = some 4
    ∧ ((done sysC1 "alice" "E1").1.eq.getById "E1").map
        (fun e => e.audit.length) = some 6 :=
  ⟨by decide, rfl, by decide, by decide⟩

/-- C1 amended: for an event in a terminal state, `mark_active` and
`suspend` are rejected with an error and leave the whole system state
unchanged; `done`, however, checks only ownership — on a terminal event
whose taker is still the actor it succeeds again, leaving the state
`done` (and appending audit records) rather than rejecting. -/
theorem terminal_transitions (s : Sys) (a id : String) (e : Event)
    (he : s.eq.getById id = some e) (hid : e.id = id)
    (hterm : isTerminal e.state) :
    ((markActive s a id).1 = s ∧ ∃ msg, (markActive s a id).2 = .error msg)
    ∧ ((suspend s a id).1 = s ∧ ∃ msg, (suspend s a id).2 = .error msg)
    ∧ (e.taker = some a →
        (done s a id).2 = .ok ()
        ∧ ((done s a id).1.eq.getById id).map Event.state = some "done") := by
  have hterm' : e.state = "done" ∨ e.state = "failed" ∨ e.state = "expired"
      ∨ e.state = "cancelled" := by simpa [isTerminal] using hterm
  have hstates : e.state ≠ "claimed" ∧ e.state ≠ "suspended"
      ∧ e.state ≠ "active" := by
    rcases hterm' with h | h | h | h <;> rw [h] <;>
      exact ⟨by decide, by decide, by decide⟩
  refine ⟨?_, ?_, ?_⟩
  · unfold markActive
    simp only [he]
    by_cases ht : e.taker ≠ some a
    · rw [if_pos ht]
      exact ⟨rfl, "KeyError", rfl⟩
    · rw [if_neg ht,
        if_pos (show e.state ≠ "claimed" ∧ e.state ≠ "suspended" from
          ⟨hstates.1, hstates.2.1⟩)]
      exact ⟨rfl, "invalid state", rfl⟩
  · unfold suspend
    simp only [he]
    by_cases ht : e.taker ≠ some a
    · rw [if_pos ht]
      exact ⟨rfl, "KeyError", rfl⟩
    · rw [if_neg ht, if_pos hstates.2.2]
      exact ⟨rfl, "invalid state", rfl⟩
  · intro hT
    exact ⟨(done_ok s a id e he hid hT).1, (done_ok s a id e he hid hT).2.1⟩

/-- C1 amended witness: applied to the concrete post-`done` state. -/
theorem terminal_transitions_witness :
    (markActive sysC1 "alice" "E1").1 = sysC1
    ∧ ((done sysC1 "alice" "E1").1.eq.getById "E1").map Event.state =
        some "done" := by
  have happ := terminal_transitions sysC1 "alice" "E1"
    ((sysC1.eq.getById "E1").getD evC1) (by decide) (by decide) (by decide)
  exact ⟨happ.1.1, (happ.2.2 (by decide)).2⟩

/-! ## Claim C4 — taker vs. lifecycle state -/

theorem dictAll_set {P : Event → Bool} {d : List (String × Event)}
    (k : String) (v : Event) (h : DictAll P d = true) (hv : P v = true) :
    DictAll P (dictSet d k v) = true := by
  induction d with
  | nil => simp [DictAll, dictSet, hv]
  | cons p rest ih =>
    obtain ⟨k0, v0⟩ := p
    simp only [DictAll, List.all_cons, Bool.and_eq_true] at h
    by_cases h0 : k0 = k
    · simp [DictAll, dictSet, h0, hv, h.2]
    · simp only [DictAll, dictSet, h0, if_false, List.all_cons,
        Bool.and_eq_true]
      exact ⟨h.1, ih h.2⟩

theorem dictAll_get {P : Event → Bool} {d : List (String × Event)}
    {k : String} {v : Event} (h : DictAll P d = true)
    (hd : dictGet d k = some v) : P v = true := by
  induction d with
  | nil => simp [dictGet] at hd
  | cons p rest ih =>
    obtain ⟨k0, v0⟩ := p
    simp only [DictAll, List.all_cons, Bool.and_eq_true] at h
    by_cases h0 : k0 = k
    · simp only [dictGet, h0, if_true] at hd
      cases hd
      exact h.1
    · simp only [dictGet, h0, if_false] at hd
      exact ih h.2 hd

theorem dictAll_update {P : Event → Bool} {eq eq' : EventQueue} {v v' : Event}
    {ts : Int} (hu : eq.update v ts = .ok (eq', v'))
    (h : DictAll P eq.events = true)
    (hv : P (v.appendAudit ts "system" "update") = true) :
    DictAll P eq'.events = true := by
  have hold : (dictGet eq.events v.id).isSome := by
    unfold EventQueue.update at hu
    cases hd : dictGet eq.events v.id with
    | none => rw [hd] at hu; exact absurd hu (by simp)
    | some _ => rfl
  obtain ⟨eq2, hu2, _, hev2⟩ := update_ok_getById eq v ts hold
  rw [hu] at hu2
  injection hu2 with h3
  have h5 : eq' = eq2 := congrArg Prod.fst h3
  subst h5
  rw [hev2]
  exact dictAll_set _ _ h hv

theorem takerOk_append (e : Event) (ts : Int) (x y : String) :
    takerOk (e.appendAudit ts x y) = takerOk e := rfl

theorem nextEventId_fst_eq (s : Sys) (b : String) :
    (nextEventId s b).1.eq = s.eq := by
  unfold nextEventId
  cases hd : dictGet s.personal b with
  | none => rfl
  | some heap => by_cases he : heap.isEmpty <;> simp [he]

theorem takerOk_fanoutActor (e : Event) (seed : Int) (s : Sys)
    (item : String × List String)
    (h : DictAll takerOk s.eq.events = true) :
    DictAll takerOk (fanoutActor e seed s item).eq.events = true := by
  simp only [fanoutActor]
  split
  · exact h
  · cases hfind : (s.eq.events.map Prod.snd).find?
      (fun ev => ev.taker = some item.1 ∧ ev.state = "active") with
    | none => simp only [hfind]; exact h
    | some active =>
      simp only [hfind]
      split
      · rcases ht1 : tick s with ⟨t1, s1⟩
        simp only [ht1]
        rcases ht2 : tick s1 with ⟨t2, s2⟩
        simp only [ht2]
        have h1 : s2.eq = s.eq := by
          have ha := tick_eq_proj s1
          have hb := tick_eq_proj s
          rw [ht2] at ha
          rw [ht1] at hb
          rw [ha, hb]
        rcases hupd : s2.eq.update
          (({ active with state := "suspended" }).appendAudit t1 item.1
            "suspend") t2 with msg | pr
        · simp only [hupd]
          simpa [h1] using h
        · obtain ⟨eq', active'⟩ := pr
          simp only [hupd]
          have htk : active.taker = some item.1 := by
            have hp := List.find?_some hfind
            simp only [Bool.and_eq_true, decide_eq_true_eq] at hp
            exact hp.1
          refine dictAll_update hupd (by rwa [h1]) ?_
          simp [takerOk, Event.appendAudit, htk]
      · exact h

theorem takerOk_onPublish (s : Sys) (e : Event) (seed : Int)
    (h : DictAll takerOk s.eq.events = true) :
    DictAll takerOk (onPublish s e seed).eq.events = true := by
  unfold onPublish
  exact foldl_preserve (fun st : Sys => DictAll takerOk st.eq.events = true)
    _ _ _ h (fun acc x hx => takerOk_fanoutActor e seed acc x hx)

theorem takerOk_claimLoop (fuel : Nat) (eq : EventQueue) (clock : List Int)
    (heap : List HeapKey) (b : String)
    (h : DictAll takerOk eq.events = true) :
    DictAll takerOk (claimLoop fuel eq clock heap b).1.events = true := by
  induction fuel generalizing eq clock heap with
  | zero => exact h
  | succ fuel ih =>
    unfold claimLoop
    cases hpop : heappop heap with
    | none => exact h
    | some kh =>
      obtain ⟨k, h'⟩ := kh
      simp only
      cases hget : eq.getById k.id with
      | none => exact ih eq clock h' h
      | some ev =>
        simp only
        split
        · exact ih eq clock h' h
        · rcases hn1 : nextTs clock with ⟨t1, c1⟩
          simp only [hn1]
          rcases hn2 : nextTs c1 with ⟨t2, c2⟩
          simp only [hn2]
          rcases hupd : eq.update
            (({ ev with state := "claimed", taker := some b
              }).appendAudit t1 b "claim") t2 with msg | pr
          · simp only [hupd]
            exact h
          · obtain ⟨eq', e'⟩ := pr
            simp only [hupd]
            refine dictAll_update hupd h ?_
            simp [takerOk, Event.appendAudit]

theorem takerOk_transition (s : Sys) (a newState : String) (e : Event)
    (hT : ¬ e.taker ≠ some a)
    (eq' : EventQueue) (e' : Event) (t1 t2 : Int) (act : String)
    (hupd : (tick (tick s).2).2.eq.update
      (({ e with state := newState }).appendAudit t1 a act) t2 = .ok (eq', e'))
    (h : DictAll takerOk s.eq.events = true) :
    DictAll takerOk eq'.events = true := by
  have h2 : (tick (tick s).2).2.eq = s.eq := by
    rw [tick_eq_proj, tick_eq_proj]
  refine dictAll_update hupd (by rwa [h2]) ?_
  have hT' : e.taker = some a := by
    by_contra hne
    exact hT hne
  simp [takerOk, Event.appendAudit, hT']

theorem tick2_eq (s : Sys) : (tick (tick s).2).2.eq = s.eq := by
  rw [tick_eq_proj, tick_eq_proj]

theorem takerOk_applyOp (s : Sys) (op : Op)
    (h : DictAll takerOk s.eq.events = true) (hop : opTakerOk op = true) :
    DictAll takerOk (applyOp s op).eq.events = true := by
  cases op with
  | subscribe a sc => exact h
  | unsubscribe a sc =>
    simpa [applyOp, (unsubscribe_frame s a sc).1] using h
  | publish e =>
    show DictAll takerOk (publishOp s e).1.eq.events = true
    unfold publishOp EventQueue.publish
    by_cases hcap : (s.eq.events.length : Int) ≥ s.eq.capacity
    · rw [if_pos hcap]
      exact h
    · rw [if_neg hcap]
      exact dictAll_set _ e h (by simpa [opTakerOk] using hop)
  | fanout e seed => exact takerOk_onPublish s e seed h
  | peek a =>
    show DictAll takerOk (peek s a).1.eq.events = true
    unfold peek
    rcases h1 : nextEventId s a with ⟨t1, r1⟩
    have hfe : t1.eq = s.eq := by
      have hh := nextEventId_fst_eq s a; rw [h1] at hh; exact hh
    cases r1 <;> simpa [hfe] using h
  | claim a =>
    show DictAll takerOk (claim s a).1.eq.events = true
    unfold claim
    cases hd : dictGet s.personal a with
    | none => exact h
    | some heap =>
      by_cases he : heap.isEmpty
      · simpa [he] using h
      · simp only [he, if_false]
        rcases hcl : claimLoop heap.length s.eq s.clock heap a with
          ⟨eq', c', h', r⟩
        have hx := takerOk_claimLoop heap.length s.eq s.clock heap a h
        rw [hcl] at hx
        simpa using hx
  | markActive a id =>
    show DictAll takerOk (markActive s a id).1.eq.events = true
    unfold markActive
    cases he : s.eq.getById id with
    | none => exact h
    | some e =>
      simp only
      split
      · exact h
      · split
        · exact h
        · rcases hupd : (tick (tick s).2).2.eq.update
            (({ e with state := "active" }).appendAudit (tick s).1 a
              "active") (tick (tick s).2).1 with msg | pr
          · simp only [hupd]
            rw [show ((tick (tick s).2).2, (Except.error msg :
              Except String Unit)).1.eq.events = s.eq.events from by
                rw [tick2_eq]]
            exact h
          · obtain ⟨eq', e'⟩ := pr
            simp only [hupd]
            exact takerOk_transition s a "active" e (by assumption)
              eq' e' _ _ "active" hupd h
  | suspend a id =>
    show DictAll takerOk (suspend s a id).1.eq.events = true
    unfold suspend
    cases he : s.eq.getById id with
    | none => exact h
    | some e =>
      simp only
      split
      · exact h
      · split
        · exact h
        · rcases hupd : (tick (tick s).2).2.eq.update
            (({ e with state := "suspended" }).appendAudit (tick s).1 a
              "suspend") (tick (tick s).2).1 with msg | pr
          · simp only [hupd]
            rw [show ((tick (tick s).2).2, (Except.error msg :
              Except String Unit)).1.eq.events = s.eq.events from by
                rw [tick2_eq]]
            exact h
          · obtain ⟨eq', e'⟩ := pr
            simp only [hupd]
            exact takerOk_transition s a "suspended" e (by assumption)
              eq' e' _ _ "suspend" hupd h
  | done a id =>
    show DictAll takerOk (done s a id).1.eq.events = true
    unfold done
    cases he : s.eq.getById id with
    | none => exact h
    | some e =>
      simp only
      split
      · exact h
      · rcases hupd : (tick (tick s).2).2.eq.update
          (({ e with state := "done" }).appendAudit (tick s).1 a
            "done") (tick (tick s).2).1 with msg | pr
        · simp only [hupd]
          rw [show ((tick (tick s).2).2, (Except.error msg :
            Except String Unit)).1.eq.events = s.eq.events from by
              rw [tick2_eq]]
          exact h
        · obtain ⟨eq', e'⟩ := pr
          simp only [hupd]
          exact takerOk_transition s a "done" e (by assumption)
            eq' e' _ _ "done" hupd h
  | update e =>
    show DictAll takerOk (updateOp s e).1.eq.events = true
    unfold updateOp
    cases he : s.eq.getById e.id with
    | none => exact h
    | some old =>
      simp only
      rcases ht1 : tick s with ⟨t1, s1⟩
      simp only [ht1]
      have h1 : s1.eq = s.eq := by
        have hh := tick_eq_proj s; rw [ht1] at hh; exact hh
      rcases hupd : s1.eq.update e t1 with msg | pr
      · simp only [hupd]
        rw [show ((s1 : Sys), (Except.error msg :
          Except String Event)).1.eq.events = s1.eq.events from rfl, h1]
        exact h
      · obtain ⟨eq', e'⟩ := pr
        simp only [hupd]
        refine dictAll_update hupd (by rwa [h1]) ?_
        rw [takerOk_append]
        simpa [opTakerOk] using hop
  | sweep now ttl seed =>
    show DictAll takerOk (checkClaimTtl s now ttl seed).1.eq.events = true
    unfold checkClaimTtl
    refine foldl_preserve
      (fun acc : Sys × List String => DictAll takerOk acc.1.eq.events = true)
      _ _ _ h ?_
    intro acc x hacc
    simp only [reclaimStep]
    split
    · exact hacc
    · rename_i ev hg
      split
      · exact hacc
      · split
        · split
          · show DictAll takerOk (tick (tick acc.1).2).2.eq.events = true
            rw [tick_eq_proj, tick_eq_proj]
            exact hacc
          · rename_i eq' e' hupd
            refine takerOk_onPublish _ _ _ ?_
            refine dictAll_update hupd ?_ ?_
            · rw [tick_eq_proj, tick_eq_proj]
              exact hacc
            · rw [takerOk_append]
              split <;> simp [takerOk, Event.appendAudit]
        · exact hacc

/-- C4 counterexample: after `done("alice", "E1")` succeeds, the stored
event has state `done` — outside {claimed, active, suspended} — while
its taker is still `alice`, not null, so the biconditional fails. -/
theorem taker_terminal_counterexample :
    (sysC1.eq.getById "E1").map (fun e => (e.state, e.taker)) =
      some ("done", some "alice")
    ∧ ("done" ≠ "claimed" ∧ "done" ≠ "active" ∧ "done" ≠ "suspended") :=
  ⟨by decide, by decide⟩

/-- C4 amended: only the forward direction holds: in every run whose
externally injected events satisfy it, every stored event has a taker
whenever its state is claimed, active or suspended.  The converse fails:
`done` does not clear the taker — after `done(actor, id)` succeeds, the
taker is still `actor` (only `check_claim_ttl` ever resets it). -/
theorem taker_set_amended (s0 : Sys) (ops : List Op)
    (h0 : DictAll takerOk s0.eq.events = true)
    (hops : ops.all opTakerOk = true) :
    DictAll takerOk (runOps s0 ops).eq.events = true
    ∧ (∀ s a id e, s.eq.getById id = some e → e.id = id →
        e.taker = some a →
        ((done s a id).1.eq.getById id).map Event.taker = some (some a)) := by
  constructor
  · induction ops generalizing s0 with
    | nil => exact h0
    | cons op rest ih =>
      simp only [List.all_cons, Bool.and_eq_true] at hops
      exact ih (applyOp s0 op) (takerOk_applyOp s0 op h0 hops.1) hops.2
  · intro s a id e he hid hT
    exact (done_ok s a id e he hid hT).2.2

/-- C4 amended witness: the `traceC1` run satisfies the invariant, and
the concrete `done` call keeps alice as taker. -/
theorem taker_set_amended_witness :
    DictAll takerOk sysC1.eq.events = true
    ∧ ((done sysC1 "alice" "E1").1.eq.getById "E1").map Event.taker =
        some (some "alice") := by
  have happ := taker_set_amended (initSys 10000 [10, 11, 12, 13, 14, 15])
    traceC1 (by decide) (by decide)
  exact ⟨happ.1, happ.2 sysC1 "alice" "E1"
    ((sysC1.eq.getById "E1").getD evC1) (by decide) (by decide) (by decide)⟩

/-! ## Claim C3 — at most one active event per actor -/

theorem activeCount_cons (p : String × Event) (d : List (String × Event))
    (a : String) :
    activeCount (p :: d) a = actInd a p.2 + activeCount d a := by
  unfold activeCount actInd
  by_cases hp : (p.2.taker = some a ∧ p.2.state = "active") <;>
    simp [List.filter_cons, hp] <;> omega

theorem actInd_append_audit (a : String) (e : Event) (ts : Int)
    (x y : String) : actInd a (e.appendAudit ts x y) = actInd a e := rfl

theorem actInd_ne_active (a : String) (e : Event) (h : e.state ≠ "active") :
    actInd a e = 0 := by
  unfold actInd
  simp [h]

theorem activeCount_dictSet_ex (d : List (String × Event)) (k : String)
    (v e : Event) (a : String) (hd : dictGet d k = some e) :
    activeCount (dictSet d k v) a + actInd a e
      = activeCount d a + actInd a v := by
  induction d with
  | nil => simp [dictGet] at hd
  | cons p rest ih =>
    obtain ⟨k0, v0⟩ := p
    by_cases h0 : k0 = k
    · simp only [dictGet, h0, if_true, Option.some.injEq] at hd
      subst hd
      simp only [dictSet, h0, if_true]
      rw [activeCount_cons, activeCount_cons]
      dsimp only
      omega
    · simp only [dictGet, h0, if_false] at hd
      simp only [dictSet, h0, if_false]
      rw [activeCount_cons, activeCount_cons]
      have hih := ih hd
      omega

theorem activeCount_dictSet_new (d : List (String × Event)) (k : String)
    (v : Event) (a : String) (hd : dictGet d k = none) :
    activeCount (dictSet d k v) a = activeCount d a + actInd a v := by
  induction d with
  | nil =>
    show activeCount ((k, v) :: []) a = activeCount [] a + actInd a v
    rw [activeCount_cons]
    dsimp only
    have hz : activeCount ([] : List (String × Event)) a = 0 := rfl
    omega
  | cons p rest ih =>
    obtain ⟨k0, v0⟩ := p
    by_cases h0 : k0 = k
    · simp [dictGet, h0] at hd
    · simp only [dictGet, h0, if_false] at hd
      simp only [dictSet, h0, if_false]
      rw [activeCount_cons, activeCount_cons, ih hd]
      dsimp only
      omega

theorem activeCount_update_le {eq eq' : EventQueue} {v v' : Event} {ts : Int}
    (hu : eq.update v ts = .ok (eq', v')) (a : String) :
    activeCount eq'.events a ≤ activeCount eq.events a + actInd a v := by
  have hold : (dictGet eq.events v.id).isSome := by
    unfold EventQueue.update at hu
    cases hd : dictGet eq.events v.id with
    | none => rw [hd] at hu; exact absurd hu (by simp)
    | some _ => rfl
  cases hd : dictGet eq.events v.id with
  | none => rw [hd] at hold; simp at hold
  | some old =>
    obtain ⟨eq2, hu2, _, hev2⟩ := update_ok_getById eq v ts hold
    rw [hu] at hu2
    injection hu2 with h3
    have h5 : eq' = eq2 := congrArg Prod.fst h3
    subst h5
    rw [hev2]
    have hex := activeCount_dictSet_ex eq.events v.id
      (v.appendAudit ts "system" "update") old a hd
    rw [actInd_append_audit] at hex
    omega

theorem activeInv_fanoutActor (e : Event) (seed : Int) (s : Sys)
    (item : String × List String)
    (h : ∀ b, activeCount s.eq.events b ≤ 1) :
    ∀ b, activeCount (fanoutActor e seed s item).eq.events b ≤ 1 := by
  simp only [fanoutActor]
  split
  · exact h
  · cases hfind : (s.eq.events.map Prod.snd).find?
      (fun ev => ev.taker = some item.1 ∧ ev.state = "active") with
    | none => simp only [hfind]; exact h
    | some active =>
      simp only [hfind]
      split
      · rcases ht1 : tick s with ⟨t1, s1⟩
        simp only [ht1]
        rcases ht2 : tick s1 with ⟨t2, s2⟩
        simp only [ht2]
        have h1 : s2.eq = s.eq := by
          have ha := tick_eq_proj s1
          have hb := tick_eq_proj s
          rw [ht2] at ha
          rw [ht1] at hb
          rw [ha, hb]
        rcases hupd : s2.eq.update
          (({ active with state := "suspended" }).appendAudit t1 item.1
            "suspend") t2 with msg | pr
        · simp only [hupd]
          simpa [h1] using h
        · obtain ⟨eq', active'⟩ := pr
          simp only [hupd]
          intro b
          have hle := activeCount_update_le hupd b
          rw [actInd_append_audit,
            actInd_ne_active b _ (by simp : (({ active with
              state := "suspended" } : Event)).state ≠ "active")] at hle
          rw [h1] at hle
          exact le_trans hle (by simpa using h b)
      · exact h

theorem activeInv_onPublish (s : Sys) (e : Event) (seed : Int)
    (h : ∀ b, activeCount s.eq.events b ≤ 1) :
    ∀ b, activeCount (onPublish s e seed).eq.events b ≤ 1 := by
  unfold onPublish
  exact foldl_preserve
    (fun st : Sys => ∀ b, activeCount st.eq.events b ≤ 1) _ _ _ h
    (fun acc x hx => activeInv_fanoutActor e seed acc x hx)

theorem activeInv_claimLoop (fuel : Nat) (eq : EventQueue)
    (clock : List Int) (heap : List HeapKey) (b : String)
    (h : ∀ c, activeCount eq.events c ≤ 1) :
    ∀ c, activeCount (claimLoop fuel eq clock heap b).1.events c ≤ 1 := by
  induction fuel generalizing eq clock heap with
  | zero => exact h
  | succ fuel ih =>
    unfold claimLoop
    cases hpop : heappop heap with
    | none => exact h
    | some kh =>
      obtain ⟨k, h'⟩ := kh
      simp only
      cases hget : eq.getById k.id with
      | none => exact ih eq clock h' h
      | some ev =>
        simp only
        split
        · exact ih eq clock h' h
        · rcases hn1 : nextTs clock with ⟨t1, c1⟩
          simp only [hn1]
          rcases hn2 : nextTs c1 with ⟨t2, c2⟩
          simp only [hn2]
          rcases hupd : eq.update
            (({ ev with state := "claimed", taker := some b
              }).appendAudit t1 b "claim") t2 with msg | pr
          · simp only [hupd]
            exact h
          · obtain ⟨eq', e'⟩ := pr
            simp only [hupd]
            intro c
            have hle := activeCount_update_le hupd c
            have hst2 : ({ ev with state := "claimed", taker := some b } : Event).state ≠ "active" := by simp
            rw [actInd_append_audit, actInd_ne_active c _ hst2] at hle
            exact le_trans hle (by simpa using h c)

theorem activeInv_applyOp (s : Sys) (op : Op) (h : ActiveInv s)
    (hop : opSafeC3 s op = true) : ActiveInv (applyOp s op) := by
  cases op with
  | subscribe a sc => exact h
  | unsubscribe a sc =>
    intro b
    show activeCount (unsubscribe s a sc).eq.events b ≤ 1
    rw [(unsubscribe_frame s a sc).1]
    exact h b
  | publish e =>
    intro b
    show activeCount (publishOp s e).1.eq.events b ≤ 1
    have hne : e.state ≠ "active" := by simpa [opSafeC3] using hop
    unfold publishOp EventQueue.publish
    by_cases hcap : (s.eq.events.length : Int) ≥ s.eq.capacity
    · rw [if_pos hcap]
      exact h b
    · rw [if_neg hcap]
      show activeCount (dictSet s.eq.events e.id e) b ≤ 1
      cases hd : dictGet s.eq.events e.id with
      | none =>
        rw [activeCount_dictSet_new _ _ _ _ hd, actInd_ne_active b e hne]
        simpa using h b
      | some old =>
        have hex := activeCount_dictSet_ex s.eq.events e.id e old b hd
        rw [actInd_ne_active b e hne] at hex
        have hb := h b
        omega
  | fanout e seed => exact activeInv_onPublish s e seed h
  | peek a =>
    intro b
    show activeCount (peek s a).1.eq.events b ≤ 1
    unfold peek
    rcases h1 : nextEventId s a with ⟨t1, r1⟩
    have hfe : t1.eq = s.eq := by
      have hh := nextEventId_fst_eq s a; rw [h1] at hh; exact hh
    cases r1 <;> simpa [hfe] using h b
  | claim a =>
    intro b
    show activeCount (claim s a).1.eq.events b ≤ 1
    unfold claim
    cases hd : dictGet s.personal a with
    | none => exact h b
    | some heap =>
      by_cases he : heap.isEmpty
      · simpa [he] using h b
      · simp only [he, if_false]
        rcases hcl : claimLoop heap.length s.eq s.clock heap a with
          ⟨eq', c', h', r⟩
        have hx := activeInv_claimLoop heap.length s.eq s.clock heap a h b
        rw [hcl] at hx
        simpa using hx
  | markActive a id =>
    intro b
    show activeCount (markActive s a id).1.eq.events b ≤ 1
    have hz : activeCount s.eq.events a = 0 := by
      simpa [opSafeC3] using hop
    unfold markActive
    cases he : s.eq.getById id with
    | none => exact h b
    | some e =>
      simp only
      split
      · exact h b
      · split
        · exact h b
        · rename_i hTne hst
          rcases hupd : (tick (tick s).2).2.eq.update
            (({ e with state := "active" }).appendAudit (tick s).1 a
              "active") (tick (tick s).2).1 with msg | pr
          · simp only [hupd]
            show activeCount (tick (tick s).2).2.eq.events b ≤ 1
            rw [tick2_eq]
            exact h b
          · obtain ⟨eq', e'⟩ := pr
            simp only [hupd]
            have hle := activeCount_update_le hupd b
            rw [actInd_append_audit, tick2_eq] at hle
            have hT : e.taker = some a := by
              by_contra hne
              exact hTne hne
            by_cases hab : b = a
            · subst hab
              have hiv : actInd b ({ e with state := "active" } : Event)
                  ≤ 1 := by
                unfold actInd
                split <;> omega
              omega
            · have hiv : actInd b ({ e with state := "active" } : Event)
                  = 0 := by
                unfold actInd
                rw [if_neg]
                intro hcon
                have : e.taker = some b := hcon.1
                rw [hT] at this
                injection this with hx
                exact hab hx.symm
              rw [hiv] at hle
              have hb := h b
              omega
  | suspend a id =>
    intro b
    show activeCount (suspend s a id).1.eq.events b ≤ 1
    unfold suspend
    cases he : s.eq.getById id with
    | none => exact h b
    | some e =>
      simp only
      split
      · exact h b
      · split
        · exact h b
        · rcases hupd : (tick (tick s).2).2.eq.update
            (({ e with state := "suspended" }).appendAudit (tick s).1 a
              "suspend") (tick (tick s).2).1 with msg | pr
          · simp only [hupd]
            show activeCount (tick (tick s).2).2.eq.events b ≤ 1
            rw [tick2_eq]
            exact h b
          · obtain ⟨eq', e'⟩ := pr
            simp only [hupd]
            have hle := activeCount_update_le hupd b
            rw [actInd_append_audit, tick2_eq, actInd_ne_active b _
              (by simp : (({ e with state := "suspended" } :
                Event)).state ≠ "active")] at hle
            have hb := h b
            omega
  | done a id =>
    intro b
    show activeCount (done s a id).1.eq.events b ≤ 1
    unfold done
    cases he : s.eq.getById id with
    | none => exact h b
    | some e =>
      simp only
      split
      · exact h b
      · rcases hupd : (tick (tick s).2).2.eq.update
          (({ e with state := "done" }).appendAudit (tick s).1 a
            "done") (tick (tick s).2).1 with msg | pr
        · simp only [hupd]
          show activeCount (tick (tick s).2).2.eq.events b ≤ 1
          rw [tick2_eq]
          exact h b
        · obtain ⟨eq', e'⟩ := pr
          simp only [hupd]
          have hle := activeCount_update_le hupd b
          rw [actInd_append_audit, tick2_eq, actInd_ne_active b _
            (by simp : (({ e with state := "done" } :
              Event)).state ≠ "active")] at hle
          have hb := h b
          omega
  | update e =>
    intro b
    show activeCount (updateOp s e).1.eq.events b ≤ 1
    have hne : e.state ≠ "active" := by simpa [opSafeC3] using hop
    unfold updateOp
    cases he : s.eq.getById e.id with
    | none => exact h b
    | some old =>
      simp only
      rcases ht1 : tick s with ⟨t1, s1⟩
      simp only [ht1]
      have h1 : s1.eq = s.eq := by
        have hh := tick_eq_proj s; rw [ht1] at hh; exact hh
      rcases hupd : s1.eq.update e t1 with msg | pr
      · simp only [hupd]
        show activeCount s1.eq.events b ≤ 1
        rw [h1]
        exact h b
      · obtain ⟨eq', e'⟩ := pr
        simp only [hupd]
        have hle := activeCount_update_le hupd b
        rw [actInd_ne_active b e hne, h1] at hle
        have hb := h b
        omega
  | sweep now ttl seed =>
    show ActiveInv (checkClaimTtl s now ttl seed).1
    intro b
    show activeCount (checkClaimTtl s now ttl seed).1.eq.events b ≤ 1
    unfold checkClaimTtl
    refine foldl_preserve
      (fun acc : Sys × List String =>
        ∀ c, activeCount acc.1.eq.events c ≤ 1) _ _ _ (fun c => h c) ?_ b
    intro acc x hacc
    simp only [reclaimStep]
    split
    · exact hacc
    · rename_i ev hg
      split
      · exact hacc
      · split
        · split
          · intro c
            show activeCount (tick (tick acc.1).2).2.eq.events c ≤ 1
            rw [tick_eq_proj, tick_eq_proj]
            exact hacc c
          · rename_i eq' e' hupd
            refine activeInv_onPublish _ _ _ ?_
            intro c
            have hle := activeCount_update_le hupd c
            rw [tick_eq_proj, tick_eq_proj] at hle
            have hiv : actInd c ((if "officers" ∈
                ({ ev with state := "queued", taker := none } :
                  Event).audience_scope then
                ({ ev with state := "queued", taker := none } : Event)
              else { ({ ev with state := "queued", taker := none } :
                Event) with audience_scope := ({ ev with
                  state := "queued", taker := none } :
                    Event).audience_scope ++ ["officers"]
                }).appendAudit (tick acc.1).1 "system" "claim_timeout")
                = 0 := by
              rw [actInd_append_audit]
              split <;> exact actInd_ne_active _ _ (by simp)
            rw [hiv] at hle
            have hb := hacc c
            show activeCount eq'.events c ≤ 1
            omega
        · exact hacc

/-- C3 counterexample: through the broker operations alone (subscribe,
fan-out, claim, mark_active, repeated), alice ends up with two events
simultaneously `active` and taken by her — `mark_active` never checks
for an existing active event. -/
theorem two_active_counterexample :
    activeCount sysC3.eq.events "alice" = 2
    ∧ (sysC3.eq.getById "F1").map (fun e => (e.state, e.taker)) =
        some ("active", some "alice")
    ∧ (sysC3.eq.getById "F2").map (fun e => (e.state, e.taker)) =
        some ("active", some "alice") :=
  ⟨by decide, by decide, by decide⟩

/-- C3 amended: the at-most-one-active invariant is preserved by every
broker/queue operation except an unguarded `mark_active`: it holds in
every state reached by a run in which `mark_active` is only invoked
when the acting actor holds no active event (and externally injected
records are not already active).  `mark_active` itself enforces no such
guard, so the unrestricted claim fails. -/
theorem at_most_one_active (s0 : Sys) (ops : List Op) (h0 : ActiveInv s0)
    (hsafe : SafeRun s0 ops = true) : ActiveInv (runOps s0 ops) := by
  induction ops generalizing s0 with
  | nil => exact h0
  | cons op rest ih =>
    simp only [SafeRun, Bool.and_eq_true] at hsafe
    exact ih (applyOp s0 op) (activeInv_applyOp s0 op h0 hsafe.1) hsafe.2

/-- C3 amended witness: the single-claim trace is safe and keeps the
invariant. -/
theorem at_most_one_active_witness :
    SafeRun (initSys 10000 [10, 11, 12, 13, 14, 15]) traceC1 = true
    ∧ ActiveInv sysC1 :=
  ⟨by decide,
   at_most_one_active (initSys 10000 [10, 11, 12, 13, 14, 15]) traceC1
     (fun a => by simp [activeCount, List.filter]) (by decide)⟩

/-! ## Claim C9 — update rebuilds the indices -/

theorem indexAppend_get_self (d : List (String × List String))
    (k id : String) :
    dictGet (indexAppend d k id) k = some ((dictGet d k).getD [] ++ [id]) := by
  unfold indexAppend
  rw [dictGet_dictSet_self, dictGet_dictSetdefault_self]
  rfl

theorem indexAppend_get_ne (d : List (String × List String))
    (k k' id : String) (h : k' ≠ k) :
    dictGet (indexAppend d k id) k' = dictGet d k' := by
  unfold indexAppend
  rw [dictGet_dictSet_ne _ _ _ _ h, dictGet_dictSetdefault_ne _ _ _ _ h]

theorem indexRemoveFirst_get_self (d : List (String × List String))
    (k id : String) :
    dictGet (indexRemoveFirst d k id) k =
      (dictGet d k).map (fun l => l.erase id) := by
  unfold indexRemoveFirst
  cases hd : dictGet d k with
  | none => simp [hd]
  | some l => simp [dictGet_dictSet_self, hd]

theorem indexRemoveFirst_get_ne (d : List (String × List String))
    (k k' id : String) (h : k' ≠ k) :
    dictGet (indexRemoveFirst d k id) k' = dictGet d k' := by
  unfold indexRemoveFirst
  cases hd : dictGet d k with
  | none => rfl
  | some l => exact dictGet_dictSet_ne _ _ _ _ h

theorem getD_map_erase (o : Option (List String)) (id : String) :
    ((o.map (fun l => l.erase id)).getD []) = (o.getD []).erase id := by
  cases o <;> simp

/-- C9: `update(e')` on a stored event errors on an unknown id; on a
known id it stores `e'` with exactly one appended `system`/`update`
audit record, removes the id from the previous category and scope lists
(first occurrence only) and re-inserts it under the new ones.  For the
S6 shape (singleton scopes, changed category and scope) this gives:
the old category list loses the id (when it held at most one copy), the
new category and scope lists gain it at the end, and the primary map
returns the updated event. -/
theorem update_reindex (eq : EventQueue) (e' old : Event) (ts : Int)
    (hold : eq.getById e'.id = some old) (co cn so sn : String)
    (hco : old.category = some co) (hcot : co ≠ "")
    (hcn : e'.category = some cn) (hcnt : cn ≠ "") (hne : co ≠ cn)
    (hso : old.audience_scope = [so]) (hsn : e'.audience_scope = [sn])
    (hsne : sn ≠ so) :
    (∀ x : Event, eq.getById x.id = none →
      eq.update x ts = .error "event not found")
    ∧ ∃ eq2, eq.update e' ts =
        .ok (eq2, e'.appendAudit ts "system" "update")
      ∧ eq2.getById e'.id = some (e'.appendAudit ts "system" "update")
      ∧ eq2.listByCategory co = (eq.listByCategory co).erase e'.id
      ∧ eq2.listByCategory cn = eq.listByCategory cn ++ [e'.id]
      ∧ eq2.listByScope so = (eq.listByScope so).erase e'.id
      ∧ eq2.listByScope sn = eq.listByScope sn ++ [e'.id]
      ∧ ((eq.listByCategory co).count e'.id ≤ 1 →
          e'.id ∉ eq2.listByCategory co)
      ∧ e'.id ∈ eq2.listByCategory cn
      ∧ e'.id ∈ eq2.listByScope sn := by
  constructor
  · intro x hx
    unfold EventQueue.update
    unfold EventQueue.getById at hx
    rw [hx]
  · unfold EventQueue.update
    unfold EventQueue.getById at hold
    rw [hold]
    simp only [hco, hcn, hso, hsn, catTruthy, hcot, hcnt, List.foldl]
    refine ⟨_, rfl, ?_⟩
    have hdc : decide (co ≠ "") = true := by simp [hcot]
    have hdn : decide (cn ≠ "") = true := by simp [hcnt]
    rw [if_pos hdn, if_pos hdc]
    simp only [Option.getD_some]
    have hbyCat_co : dictGet (indexAppend (indexRemoveFirst eq.by_category
        co e'.id) cn e'.id) co =
        (dictGet eq.by_category co).map (fun l => l.erase e'.id) := by
      rw [indexAppend_get_ne _ _ _ _ hne, indexRemoveFirst_get_self]
    have hbyCat_cn : dictGet (indexAppend (indexRemoveFirst eq.by_category
        co e'.id) cn e'.id) cn =
        some ((dictGet eq.by_category cn).getD [] ++ [e'.id]) := by
      rw [indexAppend_get_self, indexRemoveFirst_get_ne _ _ _ _
        (Ne.symm hne)]
    have hbySc_so : dictGet (indexAppend (indexRemoveFirst eq.by_scope
        so e'.id) sn e'.id) so =
        (dictGet eq.by_scope so).map (fun l => l.erase e'.id) := by
      rw [indexAppend_get_ne _ _ _ _ (Ne.symm hsne),
        indexRemoveFirst_get_self]
    have hbySc_sn : dictGet (indexAppend (indexRemoveFirst eq.by_scope
        so e'.id) sn e'.id) sn =
        some ((dictGet eq.by_scope sn).getD [] ++ [e'.id]) := by
      rw [indexAppend_get_self, indexRemoveFirst_get_ne _ _ _ _ hsne]
    refine ⟨?_, ?_, ?_, ?_, ?_, ?_, ?_, ?_⟩
    · show dictGet (dictSet eq.events e'.id _) e'.id = _
      exact dictGet_dictSet_self _ _ _
    · show (dictGet _ co).getD [] = _
      rw [hbyCat_co, getD_map_erase]
      rfl
    · show (dictGet _ cn).getD [] = _
      rw [hbyCat_cn]
      rfl
    · show (dictGet _ so).getD [] = _
      rw [hbySc_so, getD_map_erase]
      rfl
    · show (dictGet _ sn).getD [] = _
      rw [hbySc_sn]
      rfl
    · intro hcount
      show e'.id ∉ (dictGet _ co).getD []
      rw [hbyCat_co, getD_map_erase]
      have hc := List.count_erase_self e'.id
        ((dictGet eq.by_category co).getD [])
      intro hmem
      have := List.count_pos_iff.mpr hmem
      unfold EventQueue.listByCategory at hcount
      omega
    · show e'.id ∈ (dictGet _ cn).getD []
      rw [hbyCat_cn]
      simp
    · show e'.id ∈ (dictGet _ sn).getD []
      rw [hbySc_sn]
      simp

/-- C9 witness: the S6 scenario — after moving `EE` from
engineering/department to bridge/shipwide, the engineering list no
longer holds it, the bridge and shipwide lists do, and the primary map
returns the updated event. -/
theorem update_reindex_witness :
    ∃ eq2, eqC9.update evC9' 9 =
        .ok (eq2, evC9'.appendAudit 9 "system" "update")
      ∧ eq2.getById "EE" = some (evC9'.appendAudit 9 "system" "update")
      ∧ "EE" ∉ eq2.listByCategory "engineering"
      ∧ "EE" ∈ eq2.listByCategory "bridge"
      ∧ "EE" ∈ eq2.listByScope "shipwide" := by
  obtain ⟨hnf, eq2, hu, hget, hc1, hc2, hs1, hs2, hnot, hmem1, hmem2⟩ :=
    update_reindex eqC9 evC9' evC9 9 (by decide) "engineering" "bridge"
      "department:engineering" "shipwide" (by decide) (by decide)
      (by decide) (by decide) (by decide) (by decide) (by decide)
      (by decide)
  exact ⟨eq2, hu, hget, hnot (by decide), hmem1, hmem2⟩

/-! ## Claim C7 — the claim-TTL sweep -/

theorem dictGet_mem {α : Type} {d : List (String × α)} {k : String}
    {v : α} (hd : dictGet d k = some v) : (k, v) ∈ d := by
  induction d with
  | nil => simp [dictGet] at hd
  | cons p rest ih =>
    obtain ⟨k0, v0⟩ := p
    by_cases h0 : k0 = k
    · subst h0
      simp only [dictGet, if_true, Option.some.injEq] at hd
      subst hd
      exact List.mem_cons_self _ _
    · simp only [dictGet, h0, if_false] at hd
      exact List.mem_cons_of_mem _ (ih hd)

theorem dictGet_of_mem_nodup {α : Type} {d : List (String × α)}
    {k : String} {v : α} (hnd : (d.map Prod.fst).Nodup)
    (hm : (k, v) ∈ d) : dictGet d k = some v := by
  induction d with
  | nil => simp at hm
  | cons p rest ih =>
    obtain ⟨k0, v0⟩ := p
    simp only [List.map_cons, List.nodup_cons] at hnd
    rcases List.mem_cons.mp hm with heq | hmem
    · cases heq
      simp [dictGet]
    · by_cases h0 : k0 = k
      · exfalso
        subst h0
        exact hnd.1 (List.mem_map.mpr ⟨(k0, v), hmem, rfl⟩)
      · simp only [dictGet, h0, if_false]
        exact ih hnd.2 hmem

theorem mem_dictSet {α : Type} {d : List (String × α)} {k : String}
    {v : α} {p : String × α} (hp : p ∈ dictSet d k v) :
    p = (k, v) ∨ p ∈ d := by
  induction d with
  | nil => simpa [dictSet] using hp
  | cons q rest ih =>
    obtain ⟨k0, v0⟩ := q
    by_cases h0 : k0 = k
    · simp only [dictSet, h0, if_true] at hp
      rcases List.mem_cons.mp hp with h | h
      · exact Or.inl h
      · exact Or.inr (List.mem_cons_of_mem _ h)
    · simp only [dictSet, h0, if_false] at hp
      rcases List.mem_cons.mp hp with h | h
      · exact Or.inr (h ▸ List.mem_cons_self _ _)
      · rcases ih h with h' | h'
        · exact Or.inl h'
        · exact Or.inr (List.mem_cons_of_mem _ h')

theorem dictKeys_dictSet_mem {α : Type} (d : List (String × α))
    (k : String) (v : α) (hd : (dictGet d k).isSome) :
    (dictSet d k v).map Prod.fst = d.map Prod.fst := by
  induction d with
  | nil => simp [dictGet] at hd
  | cons q rest ih =>
    obtain ⟨k0, v0⟩ := q
    by_cases h0 : k0 = k
    · subst h0
      simp [dictSet]
    · simp only [dictGet, h0, if_false] at hd
      simp [dictSet, h0, ih hd]

theorem EqWf_dictSet {d : List (String × Event)} (hwf : EqWf d)
    (k : String) (v : Event) (hd : (dictGet d k).isSome) (hv : v.id = k) :
    EqWf (dictSet d k v) := by
  constructor
  · rw [dictKeys_dictSet_mem d k v hd]
    exact hwf.1
  · intro p hp
    rcases mem_dictSet hp with h | h
    · rw [h]
      exact hv
    · exact hwf.2 p h

theorem update_anatomy {eq eq' : EventQueue} {v v' : Event} {ts : Int}
    (hu : eq.update v ts = .ok (eq', v')) :
    eq'.events = dictSet eq.events v.id (v.appendAudit ts "system" "update")
    ∧ v' = v.appendAudit ts "system" "update"
    ∧ (dictGet eq.events v.id).isSome := by
  have hold : (dictGet eq.events v.id).isSome := by
    unfold EventQueue.update at hu
    cases hd : dictGet eq.events v.id with
    | none => rw [hd] at hu; exact absurd hu (by simp)
    | some _ => rfl
  obtain ⟨eq2, hu2, _, hev2⟩ := update_ok_getById eq v ts hold
  rw [hu] at hu2
  injection hu2 with h3
  have hfst : eq' = eq2 := congrArg Prod.fst h3
  have hsnd : v' = v.appendAudit ts "system" "update" := congrArg Prod.snd h3
  exact ⟨by rw [hfst, hev2], hsnd, hold⟩

theorem update_anatomy2 {eq eq' : EventQueue} {v v' : Event} {ts : Int}
    (hu : eq.update v ts = .ok (eq', v')) :
    eq'.events = dictSet eq.events v'.id v'
    ∧ v' = v.appendAudit ts "system" "update" := by
  obtain ⟨hev, hval, _⟩ := update_anatomy hu
  have hid : v'.id = v.id := by rw [hval]; rfl
  refine ⟨?_, hval⟩
  rw [hev, hid, hval]

theorem EqWf_update {eq eq' : EventQueue} {v v' : Event} {ts : Int}
    (hu : eq.update v ts = .ok (eq', v')) (hwf : EqWf eq.events) :
    EqWf eq'.events := by
  obtain ⟨hev, _, hold⟩ := update_anatomy hu
  rw [hev]
  exact EqWf_dictSet hwf v.id _ hold rfl

theorem getById_update_ne {eq eq' : EventQueue} {v v' : Event} {ts : Int}
    (hu : eq.update v ts = .ok (eq', v')) (id : String) (hne : id ≠ v.id) :
    eq'.getById id = eq.getById id := by
  obtain ⟨hev, _, _⟩ := update_anatomy hu
  show dictGet eq'.events id = dictGet eq.events id
  rw [hev]
  exact dictGet_dictSet_ne _ _ _ _ hne

theorem fanoutActor_preserves (e : Event) (seed : Int) (s : Sys)
    (item : String × List String) (hwf : EqWf s.eq.events) :
    EqWf (fanoutActor e seed s item).eq.events
    ∧ ∀ id ev, dictGet s.eq.events id = some ev → ev.state ≠ "active" →
        dictGet (fanoutActor e seed s item).eq.events id = some ev := by
  simp only [fanoutActor]
  split
  · exact ⟨hwf, fun id ev hd _ => hd⟩
  · cases hfind : (s.eq.events.map Prod.snd).find?
      (fun ev => ev.taker = some item.1 ∧ ev.state = "active") with
    | none => simp only [hfind]; exact ⟨hwf, fun id ev hd _ => hd⟩
    | some active =>
      simp only [hfind]
      split
      · rcases ht1 : tick s with ⟨t1, s1⟩
        simp only [ht1]
        rcases ht2 : tick s1 with ⟨t2, s2⟩
        simp only [ht2]
        have h1 : s2.eq = s.eq := by
          have ha := tick_eq_proj s1
          have hb := tick_eq_proj s
          rw [ht2] at ha
          rw [ht1] at hb
          rw [ha, hb]
        have hactive : active ∈ s.eq.events.map Prod.snd :=
          List.mem_of_find?_eq_some hfind
        obtain ⟨pa, hpa, hpa2⟩ := List.mem_map.mp hactive
        have hida : active.id = pa.1 := by
          rw [← hpa2]
          exact hwf.2 pa hpa
        have hfacts := List.find?_some hfind
        simp only [Bool.and_eq_true, decide_eq_true_eq] at hfacts
        have hget_active : dictGet s.eq.events active.id = some active := by
          rw [hida]
          have := dictGet_of_mem_nodup hwf.1 (show (pa.1, pa.2) ∈ s.eq.events from hpa)
          rw [hpa2] at this
          exact this
        rcases hupd : s2.eq.update
          (({ active with state := "suspended" }).appendAudit t1 item.1
            "suspend") t2 with msg | pr
        · simp only [hupd]
          constructor
          · show EqWf s2.eq.events
            rw [h1]
            exact hwf
          · intro id ev hd _
            show dictGet s2.eq.events id = some ev
            rw [h1]
            exact hd
        · obtain ⟨eq', active'⟩ := pr
          simp only [hupd]
          have hvid : (({ active with state := "suspended" }).appendAudit t1
              item.1 "suspend").id = active.id := rfl
          constructor
          · show EqWf eq'.events
            have hwf2 : EqWf s2.eq.events := by rw [h1]; exact hwf
            exact EqWf_update hupd hwf2
          · intro id ev hd hne
            have hne2 : id ≠ active.id := by
              intro hcon
              rw [hcon] at hd
              rw [hget_active] at hd
              injection hd with hx
              rw [hx] at hfacts
              exact hne hfacts.2
            have := getById_update_ne hupd id (by rw [hvid]; exact hne2)
            show dictGet eq'.events id = some ev
            unfold EventQueue.getById at this
            rw [this, h1]
            exact hd
      · exact ⟨hwf, fun id ev hd _ => hd⟩

theorem onPublish_preserves (s : Sys) (e : Event) (seed : Int)
    (hwf : EqWf s.eq.events) :
    EqWf (onPublish s e seed).eq.events
    ∧ ∀ id ev, dictGet s.eq.events id = some ev → ev.state ≠ "active" →
        dictGet (onPublish s e seed).eq.events id = some ev := by
  unfold onPublish
  refine foldl_preserve (fun st : Sys => EqWf st.eq.events ∧
    ∀ id ev, dictGet s.eq.events id = some ev → ev.state ≠ "active" →
      dictGet st.eq.events id = some ev) _ _ _
    ⟨hwf, fun id ev hd _ => hd⟩ ?_
  intro acc x hx
  obtain ⟨hwfa, hprev⟩ := hx
  obtain ⟨hwf', hpres⟩ := fanoutActor_preserves e seed acc x hwfa
  exact ⟨hwf', fun id ev hd hne => hpres id ev (hprev id ev hd hne) hne⟩

theorem fanoutActor_rev (e : Event) (seed : Int) (s : Sys)
    (item : String × List String) {id : String} {ev : Event}
    (hd : dictGet (fanoutActor e seed s item).eq.events id = some ev)
    (hsusp : ev.state ≠ "suspended") : dictGet s.eq.events id = some ev := by
  simp only [fanoutActor] at hd
  split at hd
  · exact hd
  · cases hfind : (s.eq.events.map Prod.snd).find?
      (fun ev => ev.taker = some item.1 ∧ ev.state = "active") with
    | none => simp only [hfind] at hd; exact hd
    | some active =>
      simp only [hfind] at hd
      split at hd
      · rcases ht1 : tick s with ⟨t1, s1⟩
        simp only [ht1] at hd
        rcases ht2 : tick s1 with ⟨t2, s2⟩
        simp only [ht2] at hd
        have h1 : s2.eq = s.eq := by
          have ha := tick_eq_proj s1
          have hb := tick_eq_proj s
          rw [ht2] at ha
          rw [ht1] at hb
          rw [ha, hb]
        rcases hupd : s2.eq.update
          (({ active with state := "suspended" }).appendAudit t1 item.1
            "suspend") t2 with msg | pr
        · simp only [hupd] at hd
          rw [← h1]
          exact hd
        · obtain ⟨eq', active'⟩ := pr
          simp only [hupd] at hd
          obtain ⟨hev, hv', _⟩ := update_anatomy hupd
          rw [hev] at hd
          by_cases hk : id = (({ active with state := "suspended" }).appendAudit
              t1 item.1 "suspend").id
          · exfalso
            rw [hk, dictGet_dictSet_self] at hd
            injection hd with hx
            rw [← hx] at hsusp
            exact hsusp rfl
          · rw [dictGet_dictSet_ne _ _ _ _ hk] at hd
            rw [← h1]
            exact hd
      · exact hd

theorem onPublish_rev (s : Sys) (e : Event) (seed : Int) {id : String}
    {ev : Event}
    (hd : dictGet (onPublish s e seed).eq.events id = some ev)
    (hsusp : ev.state ≠ "suspended") : dictGet s.eq.events id = some ev := by
  rw [onPublish] at hd
  revert hd
  refine foldl_preserve
    (fun st : Sys => dictGet st.eq.events id = some ev →
      dictGet s.eq.events id = some ev) _ _ _ (fun h => h) ?_
  intro acc x hx hd
  exact hx (fanoutActor_rev e seed acc x hd hsusp)

theorem reclaimStep_cases (now ttl seed : Int) (acc : Sys × List String)
    (eid : String) (hwf : EqWf acc.1.eq.events) :
    EqWf (reclaimStep now ttl seed acc eid).1.eq.events
    ∧ (∀ id ev, id ≠ eid → dictGet acc.1.eq.events id = some ev →
        ev.state ≠ "active" →
        dictGet (reclaimStep now ttl seed acc eid).1.eq.events id = some ev)
    ∧ (∀ id ev, id ≠ eid →
        dictGet (reclaimStep now ttl seed acc eid).1.eq.events id = some ev →
        ev.state = "claimed" → dictGet acc.1.eq.events id = some ev)
    ∧ (((reclaimStep now ttl seed acc eid).2 = acc.2
        ∧ (reclaimStep now ttl seed acc eid).1.eq.events = acc.1.eq.events)
       ∨ ((reclaimStep now ttl seed acc eid).2 = acc.2 ++ [eid]
          ∧ (∃ e, dictGet acc.1.eq.events eid = some e ∧ e.state = "claimed"
              ∧ ¬ e.progress > 0 ∧ mostRecentClaimTs e.audit ≠ 0
              ∧ now - mostRecentClaimTs e.audit > ttl * 1000)
          ∧ C7Post eid (reclaimStep now ttl seed acc eid).1)) := by
  simp only [reclaimStep]
  split
  · exact ⟨hwf, fun id ev _ hd _ => hd, fun id ev _ hd _ => hd,
      Or.inl ⟨rfl, rfl⟩⟩
  · rename_i e0 hget
    split
    · exact ⟨hwf, fun id ev _ hd _ => hd, fun id ev _ hd _ => hd,
        Or.inl ⟨rfl, rfl⟩⟩
    · rename_i hskip
      split
      · rename_i hstale
        rcases ht1 : tick acc.1 with ⟨t1, s1⟩
        simp only [ht1]
        rcases ht2 : tick s1 with ⟨t2, s2⟩
        simp only [ht2]
        have h1 : s2.eq = acc.1.eq := by
          have ha := tick_eq_proj s1
          have hb := tick_eq_proj acc.1
          rw [ht2] at ha
          rw [ht1] at hb
          rw [ha, hb]
        have hid0 : e0.id = eid := hwf.2 (eid, e0) (dictGet_mem hget)
        split
        · rename_i msg hupd
          refine ⟨?_, ?_, ?_, Or.inl ⟨rfl, ?_⟩⟩
          · show EqWf s2.eq.events
            rw [h1]
            exact hwf
          · intro id ev _ hd _
            show dictGet s2.eq.events id = some ev
            rw [h1]
            exact hd
          · intro id ev _ hd _
            have hd2 : dictGet s2.eq.events id = some ev := hd
            rw [h1] at hd2
            exact hd2
          · show s2.eq.events = acc.1.eq.events
            rw [h1]
        · rename_i eq' e' hupd
          obtain ⟨hev2, hval2⟩ := update_anatomy2 hupd
          have hidE : e'.id = eid := by
            have h := congrArg Event.id hval2
            rw [h]
            split
            · exact hid0
            · exact hid0
          have hstE : e'.state = "queued" := by
            have h := congrArg Event.state hval2
            rw [h]
            split
            · rfl
            · rfl
          have htkE : e'.taker = none := by
            have h := congrArg Event.taker hval2
            rw [h]
            split
            · rfl
            · rfl
          have hoffE : "officers" ∈ e'.audience_scope := by
            have h := congrArg Event.audience_scope hval2
            rw [h]
            split
            · rename_i hmem
              exact hmem
            · show "officers" ∈ e0.audience_scope ++ ["officers"]
              exact List.mem_append_right _ (List.mem_singleton.mpr rfl)
          have hwf2 : EqWf s2.eq.events := by rw [h1]; exact hwf
          have hwf' : EqWf eq'.events := EqWf_update hupd hwf2
          obtain ⟨hwfP, hpresP⟩ := onPublish_preserves
            { s2 with eq := eq' } e' seed hwf'
          refine ⟨hwfP, ?_, ?_, Or.inr ⟨?_, ?_, ?_⟩⟩
          · intro id ev hne hd hna
            refine hpresP id ev ?_ hna
            show dictGet eq'.events id = some ev
            rw [hev2]
            rw [dictGet_dictSet_ne _ _ _ _ (by rw [hidE]; exact hne)]
            rw [h1]
            exact hd
          · intro id ev hne hd hcl
            have hd2 := onPublish_rev { s2 with eq := eq' } e' seed hd
              (by rw [hcl]; decide)
            have hd3 : dictGet eq'.events id = some ev := hd2
            rw [hev2] at hd3
            rw [dictGet_dictSet_ne _ _ _ _ (by rw [hidE]; exact hne)] at hd3
            rw [h1] at hd3
            exact hd3
          · split
            · show acc.2 ++ [e0.id] = acc.2 ++ [eid]
              rw [hid0]
            · show acc.2 ++ [e0.id] = acc.2 ++ [eid]
              rw [hid0]
          · push_neg at hskip
            exact ⟨e0, hget, hskip.1, not_lt.mpr hskip.2, hstale.1, hstale.2⟩
          · refine ⟨e', ?_, hstE, htkE, hoffE⟩
            show dictGet _ eid = some e'
            refine hpresP eid e' ?_ (by rw [hstE]; decide)
            show dictGet eq'.events eid = some e'
            rw [hev2, ← hidE]
            exact dictGet_dictSet_self _ _ _
      · exact ⟨hwf, fun id ev _ hd _ => hd, fun id ev _ hd _ => hd,
          Or.inl ⟨rfl, rfl⟩⟩

theorem reclaim_fold (now ttl seed : Int) (s0 : Sys) :
    ∀ (ids : List String) (acc : Sys × List String),
    ids.Nodup →
    EqWf acc.1.eq.events →
    (∀ id ∈ ids, ∀ ev, dictGet acc.1.eq.events id = some ev →
      ev.state = "claimed" → dictGet s0.eq.events id = some ev) →
    (∀ id ∈ acc.2, C7Pre id s0 now ttl ∧ C7Post id acc.1) →
    ∀ id ∈ (ids.foldl (reclaimStep now ttl seed) acc).2,
      C7Pre id s0 now ttl
      ∧ C7Post id (ids.foldl (reclaimStep now ttl seed) acc).1 := by
  intro ids
  induction ids with
  | nil =>
    intro acc _ _ _ hex
    simpa using hex
  | cons eid rest ih =>
    intro acc hnd hwf hframe hex
    simp only [List.foldl_cons]
    obtain ⟨hnd1, hnd2⟩ := List.nodup_cons.mp hnd
    obtain ⟨hwf', hfwd, hbwd, hcases⟩ :=
      reclaimStep_cases now ttl seed acc eid hwf
    refine ih (reclaimStep now ttl seed acc eid) hnd2 hwf' ?_ ?_
    · intro id hid ev hd hcl
      have hne : id ≠ eid := by
        intro hc
        rw [hc] at hid
        exact hnd1 hid
      exact hframe id (List.mem_cons_of_mem _ hid) ev (hbwd id ev hne hd hcl) hcl
    · intro id hid
      rcases hcases with ⟨h2eq, heveq⟩ |
        ⟨h2eq, ⟨e, hgete, hcl, hnp, hts0, hstale⟩, hpost⟩
      · rw [h2eq] at hid
        obtain ⟨hpre, hpost'⟩ := hex id hid
        obtain ⟨e', hg, hq, htk, hoff⟩ := hpost'
        refine ⟨hpre, e', ?_, hq, htk, hoff⟩
        show dictGet _ id = some e'
        rw [heveq]
        exact hg
      · rw [h2eq] at hid
        rcases List.mem_append.mp hid with hid' | hid'
        · obtain ⟨hpre, hpost'⟩ := hex id hid'
          obtain ⟨e', hg, hq, htk, hoff⟩ := hpost'
          have hne : id ≠ eid := by
            intro hc
            rw [hc] at hg
            have hg2 : dictGet acc.1.eq.events eid = some e' := hg
            rw [hgete] at hg2
            injection hg2 with hx
            rw [← hx] at hq
            rw [hcl] at hq
            exact absurd hq (by decide)
          refine ⟨hpre, e', ?_, hq, htk, hoff⟩
          show dictGet _ id = some e'
          exact hfwd id e' hne hg (by rw [hq]; decide)
        · have hid2 : id = eid := List.mem_singleton.mp hid'
          subst hid2
          refine ⟨⟨e, ?_, hcl, not_lt.mp hnp, hts0, hstale⟩, hpost⟩
          show dictGet s0.eq.events id = some e
          exact hframe id (List.mem_cons_self _ _) e hgete hcl

/-- C7: every id returned by `check_claim_ttl(now_ms, ttl_s, save_seed)`
belonged to an event that was, at entry, `claimed` with `progress = 0` and
a most-recent claim-audit timestamp more than `ttl_s * 1000` ms before
`now_ms`; and immediately afterwards that event is stored with state
`queued`, no taker, and `"officers"` in its audience scope. -/
theorem claim_ttl_spec (s : Sys) (now ttl seed : Int)
    (hwf : EqWf s.eq.events)
    (hval : ∀ p ∈ s.eq.events, 0 ≤ (Prod.snd p).progress) :
    ∀ id ∈ (checkClaimTtl s now ttl seed).2,
      (∃ e, s.eq.getById id = some e ∧ e.state = "claimed" ∧ e.progress = 0
        ∧ mostRecentClaimTs e.audit ≠ 0
        ∧ now - mostRecentClaimTs e.audit > ttl * 1000)
      ∧ C7Post id (checkClaimTtl s now ttl seed).1 := by
  intro id hid
  have h := reclaim_fold now ttl seed s (s.eq.events.map Prod.fst) (s, [])
    hwf.1 hwf (fun id _ ev hd _ => hd)
    (fun id hid => absurd hid (List.not_mem_nil id)) id hid
  obtain ⟨⟨e, hg, hcl, hnp, hts, hstale⟩, hpost⟩ := h
  refine ⟨⟨e, hg, hcl, ?_, hts, hstale⟩, hpost⟩
  exact le_antisymm hnp (hval (id, e) (dictGet_mem hg))

/-- Witness for C7: the concrete system `sysC7` (one stale claimed event)
satisfies the hypotheses, so `claim_ttl_spec` applies to it. -/
theorem claim_ttl_spec_witness :
    EqWf sysC7.eq.events
    ∧ (∀ p ∈ sysC7.eq.events, 0 ≤ (Prod.snd p).progress)
    ∧ ∀ id ∈ (checkClaimTtl sysC7 300000 1 0).2,
      (∃ e, sysC7.eq.getById id = some e ∧ e.state = "claimed"
        ∧ e.progress = 0 ∧ mostRecentClaimTs e.audit ≠ 0
        ∧ 300000 - mostRecentClaimTs e.audit > 1 * 1000)
      ∧ C7Post id (checkClaimTtl sysC7 300000 1 0).1 :=
  ⟨by unfold EqWf; decide, by decide,
    claim_ttl_spec sysC7 300000 1 0 (by unfold EqWf; decide) (by decide)⟩

/-! ## Claim C5 — `should_preempt` and the preemption effect -/

theorem tick_personal (s : Sys) : (tick s).2.personal = s.personal := by
  unfold tick
  cases s.clock with
  | nil => rfl
  | cons t ts => rfl

theorem heappush_nil (k : HeapKey) : heappush [] k = [k] := rfl

theorem heappush_single (k0 k1 : HeapKey) :
    heappush [k0] k1 = if k1.lt k0 = true then [k1, k0] else [k0, k1] := by
  show siftdownLoop 1 [k0, k1] 0 1 ([k0, k1].getD 1 default) = _
  simp only [siftdownLoop]
  norm_num

theorem HeapKey.lt_of_priority_lt (k1 k2 : HeapKey)
    (h : k1.priority < k2.priority) : k1.lt k2 = true := by
  unfold HeapKey.lt
  rw [if_pos (ne_of_lt h)]
  exact decide_eq_true h

theorem update_ne_error {eq : EventQueue} {v : Event} {ts : Int}
    {msg : String} (hold : (dictGet eq.events v.id).isSome) :
    eq.update v ts ≠ .error msg := by
  intro hc
  unfold EventQueue.update at hc
  cases hd : dictGet eq.events v.id with
  | none => rw [hd] at hold; simp at hold
  | some old => rw [hd] at hc; simp at hc

theorem dictSetdefault_of_isSome {α : Type} (d : List (String × α))
    (k : String) (dflt : α) (h : (dictGet d k).isSome) :
    dictSetdefault d k dflt = d := by
  unfold dictSetdefault
  cases hd : dictGet d k with
  | none => rw [hd] at h; simp at h
  | some v => rfl

theorem foldl_preserve_mem {α β : Type} (P : α → Prop) (f : α → β → α)
    (l : List β) (init : α) (h0 : P init)
    (hstep : ∀ acc b, b ∈ l → P acc → P (f acc b)) : P (l.foldl f init) := by
  induction l generalizing init with
  | nil => exact h0
  | cons b rest ih =>
    exact ih _ (hstep _ _ (List.mem_cons_self _ _) h0)
      (fun acc c hc => hstep acc c (List.mem_cons_of_mem _ hc))

theorem find?_dictSet_false (d : List (String × Event)) (k : String)
    (v : Event) (p : Event → Bool) (hv : p v = false)
    (hold : ∀ w, dictGet d k = some w → p w = false) :
    ((dictSet d k v).map Prod.snd).find? p = (d.map Prod.snd).find? p := by
  induction d with
  | nil =>
    simp only [dictSet, List.map_cons, List.map_nil, List.find?]
    rw [hv]
  | cons q rest ih =>
    obtain ⟨k0, w0⟩ := q
    by_cases h0 : k0 = k
    · subst h0
      have hw0 : p w0 = false := hold w0 (by simp [dictGet])
      simp only [dictSet, if_true, List.map_cons, List.find?]
      rw [hv, hw0]
    · simp only [dictSet, h0, if_false, List.map_cons, List.find?]
      cases hw0 : p w0 with
      | true => rfl
      | false =>
        exact ih (fun w hw =>
          hold w (by simp only [dictGet, h0, if_false]; exact hw))

/-- A fan-out iteration for another actor preserves the target actor's
heap, the stored events that actor holds, and the outcome of the
active-event scan for that actor. -/
theorem fanoutActor_other (e : Event) (seed : Int) (st : Sys)
    (item : String × List String) (actor : String)
    (hne : item.1 ≠ actor) (hwf : EqWf st.eq.events) :
    EqWf (fanoutActor e seed st item).eq.events
    ∧ dictGet (fanoutActor e seed st item).personal actor
        = dictGet st.personal actor
    ∧ (∀ y : Event, y.taker = some actor →
        dictGet st.eq.events y.id = some y →
        dictGet (fanoutActor e seed st item).eq.events y.id = some y)
    ∧ (∀ y : Event,
        (st.eq.events.map Prod.snd).find?
          (fun ev => ev.taker = some actor ∧ ev.state = "active") = some y →
        ((fanoutActor e seed st item).eq.events.map Prod.snd).find?
          (fun ev => ev.taker = some actor ∧ ev.state = "active") = some y)
    := by
  simp only [fanoutActor]
  split
  · exact ⟨hwf, rfl, fun y _ h => h, fun y h => h⟩
  · cases hfa : (st.eq.events.map Prod.snd).find?
      (fun ev => ev.taker = some item.1 ∧ ev.state = "active") with
    | none =>
      simp only [hfa]
      refine ⟨hwf, ?_, fun y _ h => h, fun y h => h⟩
      rw [dictGet_dictSet_ne _ _ _ _ (Ne.symm hne),
        dictGet_dictSetdefault_ne _ _ _ _ (Ne.symm hne)]
    | some a =>
      simp only [hfa]
      have hamem : a ∈ st.eq.events.map Prod.snd :=
        List.mem_of_find?_eq_some hfa
      obtain ⟨pa, hpa, hpa2⟩ := List.mem_map.mp hamem
      have hfacts := List.find?_some hfa
      simp only [decide_eq_true_eq] at hfacts
      have hgeta : dictGet st.eq.events a.id = some a := by
        have h2 := dictGet_of_mem_nodup hwf.1
          (show (pa.1, pa.2) ∈ st.eq.events from hpa)
        rw [hpa2] at h2
        have hida : a.id = pa.1 := by
          rw [← hpa2]
          exact hwf.2 pa hpa
        rw [hida]
        exact h2
      split
      · rcases ht1 : tick st with ⟨t1, s1⟩
        simp only [ht1]
        rcases ht2 : tick s1 with ⟨t2, s2⟩
        simp only [ht2]
        have h1 : s2.eq = st.eq := by
          have ha := tick_eq_proj s1
          have hb := tick_eq_proj st
          rw [ht2] at ha
          rw [ht1] at hb
          rw [ha, hb]
        have hp2 : s2.personal = st.personal := by
          have ha := tick_personal s1
          have hb := tick_personal st
          rw [ht2] at ha
          rw [ht1] at hb
          rw [ha, hb]
        split
        · rename_i msg hupd
          refine ⟨?_, ?_, ?_, ?_⟩
          · show EqWf s2.eq.events
            rw [h1]
            exact hwf
          · rw [dictGet_dictSet_ne _ _ _ _ (Ne.symm hne),
              dictGet_dictSetdefault_ne _ _ _ _ (Ne.symm hne), hp2]
          · intro y _ hy
            show dictGet s2.eq.events y.id = some y
            rw [h1]
            exact hy
          · intro y hy
            show (s2.eq.events.map Prod.snd).find? _ = some y
            rw [h1]
            exact hy
        · rename_i eq2 a2 hupd
          obtain ⟨hev2, hval2⟩ := update_anatomy2 hupd
          have hAid : a2.id = a.id := by
            have h := congrArg Event.id hval2
            rw [h]
            rfl
          have hAst : a2.state = "suspended" := by
            have h := congrArg Event.state hval2
            rw [h]
            rfl
          have hwf2 : EqWf s2.eq.events := by
            rw [h1]
            exact hwf
          have hwf3 : EqWf eq2.events := EqWf_update hupd hwf2
          have hpfalse :
              (fun ev => decide (ev.taker = some actor ∧ ev.state = "active"))
                a2 = false := by
            refine decide_eq_false ?_
            intro hc
            rw [hAst] at hc
            exact absurd hc.2 (by decide)
          have hpafalse : ∀ w, dictGet s2.eq.events a2.id = some w →
              (fun ev => decide (ev.taker = some actor ∧ ev.state = "active"))
                w = false := by
            intro w hw
            rw [hAid, h1, hgeta] at hw
            injection hw with hww
            subst hww
            refine decide_eq_false ?_
            intro hc
            exact hne (Option.some.inj (hfacts.1 ▸ hc.1))
          refine ⟨hwf3, ?_, ?_, ?_⟩
          · rw [dictGet_dictSet_ne _ _ _ _ (Ne.symm hne),
              dictGet_dictSetdefault_ne _ _ _ _ (Ne.symm hne),
              dictGet_dictSet_ne _ _ _ _ (Ne.symm hne),
              dictGet_dictSetdefault_ne _ _ _ _ (Ne.symm hne), hp2]
          · intro y hyt hy
            show dictGet eq2.events y.id = some y
            rw [hev2]
            have hyne : y.id ≠ a2.id := by
              rw [hAid]
              intro hc
              rw [hc, hgeta] at hy
              injection hy with hay
              rw [← hay] at hyt
              rw [hfacts.1] at hyt
              exact hne (Option.some.inj hyt)
            rw [dictGet_dictSet_ne _ _ _ _ hyne, h1]
            exact hy
          · intro y hy
            show ((eq2.events).map Prod.snd).find? _ = some y
            rw [hev2]
            rw [find?_dictSet_false _ _ _ _ hpfalse hpafalse, h1]
            exact hy
      · refine ⟨hwf, ?_, fun y _ h => h, fun y h => h⟩
        rw [dictGet_dictSet_ne _ _ _ _ (Ne.symm hne),
          dictGet_dictSetdefault_ne _ _ _ _ (Ne.symm hne)]

/-- The fan-out iteration of the preempted actor itself: the active
event is stored suspended and the heap ends up `[e-key, x-key]`. -/
theorem fanout_act_preempt (s : Sys) (e x : Event) (seed : Int)
    (actor : String) (scopes : List String)
    (hwf : EqWf s.eq.events)
    (hrel : "shipwide" ∈ e.audience_scope
      ∨ e.audience_scope.any (fun sc => sc ∈ scopes) = true)
    (hfind : (s.eq.events.map Prod.snd).find?
      (fun ev => ev.taker = some actor ∧ ev.state = "active") = some x)
    (hgetx : dictGet s.eq.events x.id = some x)
    (hpre : x.preemptible = true) (hlt : e.priority < x.priority)
    (hheap : dictGet s.personal actor = some []) :
    ∃ x', EqWf (fanoutActor e seed s (actor, scopes)).eq.events
      ∧ dictGet (fanoutActor e seed s (actor, scopes)).eq.events x.id
          = some x'
      ∧ x'.state = "suspended" ∧ x'.taker = x.taker
      ∧ dictGet (fanoutActor e seed s (actor, scopes)).personal actor
          = some [keyFor seed actor e, keyFor seed actor x']
      ∧ HeapKey.lt (keyFor seed actor e) (keyFor seed actor x') = true
      ∧ x'.id = x.id := by
  have hsp : shouldPreempt x e = true := by
    simp [shouldPreempt]
    exact ⟨hlt, hpre⟩
  simp only [fanoutActor]
  split
  · rename_i hirr
    exfalso
    rcases hrel with hm | hany
    · exact hirr.1 hm
    · exact hirr.2 hany
  · simp only [hfind]
    rw [if_pos hsp]
    rcases ht1 : tick s with ⟨t1, s1⟩
    simp only [ht1]
    rcases ht2 : tick s1 with ⟨t2, s2⟩
    simp only [ht2]
    have h1 : s2.eq = s.eq := by
      have ha := tick_eq_proj s1
      have hb := tick_eq_proj s
      rw [ht2] at ha
      rw [ht1] at hb
      rw [ha, hb]
    have hp2 : s2.personal = s.personal := by
      have ha := tick_personal s1
      have hb := tick_personal s
      rw [ht2] at ha
      rw [ht1] at hb
      rw [ha, hb]
    split
    · rename_i msg hupd
      exfalso
      refine update_ne_error ?_ hupd
      show (dictGet s2.eq.events x.id).isSome
      rw [h1, hgetx]
      rfl
    · rename_i eq' x' hupd
      obtain ⟨hev2, hval2⟩ := update_anatomy2 hupd
      have hXid : x'.id = x.id := by
        have h := congrArg Event.id hval2
        rw [h]
        rfl
      have hXst : x'.state = "suspended" := by
        have h := congrArg Event.state hval2
        rw [h]
        rfl
      have hXtk : x'.taker = x.taker := by
        have h := congrArg Event.taker hval2
        rw [h]
        rfl
      have hXpr : x'.priority = x.priority := by
        have h := congrArg Event.priority hval2
        rw [h]
        rfl
      have hkelt : HeapKey.lt (keyFor seed actor e) (keyFor seed actor x')
          = true := by
        refine HeapKey.lt_of_priority_lt _ _ ?_
        show e.priority < x'.priority
        rw [hXpr]
        exact hlt
      have hwf2 : EqWf s2.eq.events := by
        rw [h1]
        exact hwf
      rw [hp2, hheap]
      rw [dictSetdefault_of_isSome s.personal actor [] (by rw [hheap]; rfl)]
      simp only [Option.getD_some]
      rw [heappush_nil]
      rw [dictGet_dictSet_self]
      rw [dictGet_dictSet_self]
      simp only [Option.getD_some]
      rw [heappush_single, if_pos hkelt]
      refine ⟨x', EqWf_update hupd hwf2, ?_, hXst, hXtk, rfl, hkelt, hXid⟩
      show dictGet eq'.events x.id = some x'
      rw [hev2, ← hXid]
      exact dictGet_dictSet_self _ _ _

/-- C5: `should_preempt(current, incoming)` is true exactly when the
incoming priority is strictly smaller and the current event is
preemptible (so equal priorities never preempt); and when a subscribed
actor with an empty heap holds a preemptible active event `x` and a
relevant event `e` with `e.priority < x.priority` is published, then
immediately after `on_publish` the stored `x` is suspended and the
actor's heap holds `e`'s entry at the head, strictly preceding `x`'s
entry. -/
theorem preemption_spec (c i : Event) (s : Sys) (e x : Event) (seed : Int)
    (actor : String) (scopes : List String)
    (pre post : List (String × List String))
    (hsub : s.subscriptions = pre ++ (actor, scopes) :: post)
    (hdpre : ∀ item ∈ pre, item.1 ≠ actor)
    (hdpost : ∀ item ∈ post, item.1 ≠ actor)
    (hwf : EqWf s.eq.events)
    (hrel : "shipwide" ∈ e.audience_scope
      ∨ e.audience_scope.any (fun sc => sc ∈ scopes) = true)
    (hfind : (s.eq.events.map Prod.snd).find?
      (fun ev => ev.taker = some actor ∧ ev.state = "active") = some x)
    (hpre : x.preemptible = true) (hlt : e.priority < x.priority)
    (hheap : dictGet s.personal actor = some []) :
    (shouldPreempt c i = true ↔ i.priority < c.priority ∧ c.preemptible = true)
    ∧ (i.priority = c.priority → shouldPreempt c i = false)
    ∧ (∃ x', (onPublish s e seed).eq.getById x.id = some x'
        ∧ x'.state = "suspended" ∧ x'.taker = x.taker)
    ∧ (∃ kx, dictGet (onPublish s e seed).personal actor
        = some [keyFor seed actor e, kx]
        ∧ kx.id = x.id ∧ HeapKey.lt (keyFor seed actor e) kx = true) := by
  have hiff : shouldPreempt c i = true ↔
      i.priority < c.priority ∧ c.preemptible = true := by
    simp [shouldPreempt]
  have heqp : i.priority = c.priority → shouldPreempt c i = false := by
    intro h
    simp [shouldPreempt, h]
  have hop : onPublish s e seed = post.foldl (fanoutActor e seed)
      (fanoutActor e seed (pre.foldl (fanoutActor e seed) s)
        (actor, scopes)) := by
    rw [onPublish, hsub, List.foldl_append, List.foldl_cons]
  have hx_mem : x ∈ s.eq.events.map Prod.snd := List.mem_of_find?_eq_some hfind
  obtain ⟨px, hpx, hpx2⟩ := List.mem_map.mp hx_mem
  have hxid : x.id = px.1 := by
    rw [← hpx2]
    exact hwf.2 px hpx
  have hgetx : dictGet s.eq.events x.id = some x := by
    rw [hxid]
    have h2 := dictGet_of_mem_nodup hwf.1
      (show (px.1, px.2) ∈ s.eq.events from hpx)
    rw [hpx2] at h2
    exact h2
  have hxfacts := List.find?_some hfind
  simp only [decide_eq_true_eq] at hxfacts
  have h1 := foldl_preserve_mem
    (fun st => EqWf st.eq.events
      ∧ dictGet st.eq.events x.id = some x
      ∧ (st.eq.events.map Prod.snd).find?
          (fun ev => ev.taker = some actor ∧ ev.state = "active") = some x
      ∧ dictGet st.personal actor = some [])
    (fanoutActor e seed) pre s ⟨hwf, hgetx, hfind, hheap⟩ (by
      intro acc b hb hP
      obtain ⟨ha, hb2, hc2, hd2⟩ := hP
      obtain ⟨o1, o2, o3, o4⟩ := fanoutActor_other e seed acc b actor
        (hdpre b hb) ha
      refine ⟨o1, o3 x hxfacts.1 hb2, o4 x hc2, ?_⟩
      rw [o2]
      exact hd2)
  obtain ⟨h1a, h1b, h1c, h1d⟩ := h1
  obtain ⟨x', hx1, hx2, hx3, hx4, hx5, hx6, hx7⟩ :=
    fanout_act_preempt (pre.foldl (fanoutActor e seed) s) e x seed actor
      scopes h1a hrel h1c h1b hpre hlt h1d
  have h3 := foldl_preserve_mem
    (fun st => EqWf st.eq.events
      ∧ dictGet st.eq.events x.id = some x'
      ∧ dictGet st.personal actor
          = some [keyFor seed actor e, keyFor seed actor x'])
    (fanoutActor e seed) post _ ⟨hx1, hx2, hx5⟩ (by
      intro acc b hb hP
      obtain ⟨ha, hb2, hc2⟩ := hP
      obtain ⟨p1, p2⟩ := fanoutActor_preserves e seed acc b ha
      obtain ⟨o1, o2, o3, o4⟩ := fanoutActor_other e seed acc b actor
        (hdpost b hb) ha
      refine ⟨p1, p2 x.id x' hb2 (by rw [hx3]; decide), ?_⟩
      rw [o2]
      exact hc2)
  obtain ⟨g1, g2, g3⟩ := h3
  refine ⟨hiff, heqp, ?_, ?_⟩
  · rw [hop]
    exact ⟨x', g2, hx3, hx4⟩
  · rw [hop]
    exact ⟨keyFor seed actor x', g3, hx7, hx6⟩

/-- Witness for C5: `sysC5` (subscriber `bob` with an empty heap holding
the active preemptible `evC5x`) satisfies every hypothesis with the
incoming `evC5e`, so `preemption_spec` applies to it. -/
theorem preemption_spec_witness :
    sysC5.subscriptions = [("bob", ["shipwide"])]
    ∧ EqWf sysC5.eq.events
    ∧ ("shipwide" ∈ evC5e.audience_scope
      ∨ evC5e.audience_scope.any (fun sc => sc ∈ ["shipwide"]) = true)
    ∧ (sysC5.eq.events.map Prod.snd).find?
      (fun ev => ev.taker = some "bob" ∧ ev.state = "active") = some evC5x
    ∧ evC5x.preemptible = true
    ∧ evC5e.priority < evC5x.priority
    ∧ dictGet sysC5.personal "bob" = some []
    ∧ ((shouldPreempt evC5x evC5e = true ↔
        evC5e.priority < evC5x.priority ∧ evC5x.preemptible = true)
      ∧ (evC5e.priority = evC5x.priority → shouldPreempt evC5x evC5e = false)
      ∧ (∃ x', (onPublish sysC5 evC5e 0).eq.getById evC5x.id = some x'
          ∧ x'.state = "suspended" ∧ x'.taker = evC5x.taker)
      ∧ (∃ kx, dictGet (onPublish sysC5 evC5e 0).personal "bob"
          = some [keyFor 0 "bob" evC5e, kx]
          ∧ kx.id = evC5x.id
          ∧ HeapKey.lt (keyFor 0 "bob" evC5e) kx = true)) :=
  ⟨rfl, by unfold EqWf; decide, Or.inl (by decide), by decide, rfl,
    by decide, rfl,
    preemption_spec evC5x evC5e sysC5 evC5e evC5x 0 "bob" ["shipwide"] [] []
      rfl (fun item h => absurd h (List.not_mem_nil item))
      (fun item h => absurd h (List.not_mem_nil item))
      (by unfold EqWf; decide) (Or.inl (by decide)) (by decide) rfl
      (by decide) rfl⟩

end Starship
